import Mathlib

/-!
Verification development for the multi-source detections-consensus engine
(`inference/enterprise/workflows/core_steps/fusion/detections_consensus.py`,
with a near-duplicate in `inference/core/workflows/core_steps/fusion/`).

The shallow embedding follows the enterprise (dict-based) implementation,
which is fully self-contained Python: detections are dictionaries with keys
`x`, `y`, `width`, `height`, `confidence`, `class`, `class_id`, `parent_id`,
`detection_id`.  Python floats are modelled as rationals; Python `dict`
(insertion-ordered) is modelled as an insertion-ordered association list;
Python `set` is modelled as `Finset String`.
-/

/-- One detection, mirroring the dict payload of the enterprise implementation.
The Python key `class` is rendered as the field `cls` (Lean keyword). -/
structure Detection where
  x : ℚ
  y : ℚ
  width : ℚ
  height : ℚ
  confidence : ℚ
  cls : String
  class_id : ℤ
  parent_id : String
  detection_id : String
deriving DecidableEq, Inhabited

/-- Mirrors `class AggregationMode(Enum)` with members AVERAGE, MAX, MIN. -/
inductive AggregationMode where
  | average
  | max
  | min
deriving DecidableEq, Inhabited

/-- Mirrors the runtime shape of `required_objects: Optional[Union[int, Dict[str, int]]]`:
`noRequirement` is Python `None`, `count` an int, `byClass` a class-to-count dict
(insertion-ordered association list). -/
inductive RequiredObjects where
  | noRequirement
  | count (n : ℤ)
  | byClass (m : List (String × ℤ))
deriving DecidableEq, Inhabited

/-- Ordered-dict lookup (first entry with the key). -/
def assocGet {α : Type} : List (Nat × α) → Nat → Option α
  | [], _ => none
  | (k, v) :: rest, key => if k = key then some v else assocGet rest key

/-- Ordered-dict write: replaces in place when the key is present (keeping its
position, as Python dicts do), appends otherwise. -/
def assocSet {α : Type} : List (Nat × α) → Nat → α → List (Nat × α)
  | [], key, value => [(key, value)]
  | (k, v) :: rest, key, value =>
    if k = key then (key, value) :: rest else (k, v) :: assocSet rest key value

/-- Mirrors `AGGREGATION_MODE2FIELD_AGGREGATOR` applied through
`aggregate_field_values`: the Python code extracts `[d[field] for d in detections]`
and applies `max` / `min` / `statistics.mean`; the embedding takes the already
extracted value list (callers project the field). `max`/`min`/`mean` of an empty
list raise in Python and are never reached on live paths; the embedding returns 0
there. -/
def aggregate_field_values (values : List ℚ) (aggregation_mode : AggregationMode) : ℚ :=
  match aggregation_mode with
  | AggregationMode.max =>
    match values with
    | [] => 0
    | v :: rest => rest.foldl max v
  | AggregationMode.min =>
    match values with
    | [] => 0
    | v :: rest => rest.foldl min v
  | AggregationMode.average => values.sum / values.length

/-- Mirrors `get_detection_sizes`: `[d["height"] * d["width"] for d in detections]`. -/
def get_detection_sizes (detections : List Detection) : List ℚ :=
  detections.map (fun d => d.height * d.width)

/-- Modelled from the spec: `detection_to_xyxy` is imported from
`inference.enterprise.workflows.core_steps.common.utils`, which is not among the
provided sources.  The spec's data model states a box is stored as
`(center_x, center_y, width, height)`, interconvertible with
`(x_min, y_min, x_max, y_max)` without precision loss. -/
def detection_to_xyxy (detection : Detection) : ℚ × ℚ × ℚ × ℚ :=
  (detection.x - detection.width / 2, detection.y - detection.height / 2,
   detection.x + detection.width / 2, detection.y + detection.height / 2)

/-- Mirrors the enterprise `calculate_iou`: axis-aligned IoU with areas computed
from the `height`/`width` fields (`get_detection_sizes` on the pair) and an
explicit zero-union guard. -/
def calculate_iou (detection_a detection_b : Detection) : ℚ :=
  let box_a := detection_to_xyxy detection_a
  let box_b := detection_to_xyxy detection_b
  let x_a := max box_a.1 box_b.1
  let y_a := max box_a.2.1 box_b.2.1
  let x_b := min box_a.2.2.1 box_b.2.2.1
  let y_b := min box_a.2.2.2 box_b.2.2.2
  let intersection := max 0 (x_b - x_a) * max 0 (y_b - y_a)
  let bbox_a_area := detection_a.height * detection_a.width
  let bbox_b_area := detection_b.height * detection_b.width
  let union := bbox_a_area + bbox_b_area - intersection
  if union = 0 then 0 else intersection / union

/-- Mirrors the generator `enumerate_detections(predictions, excluded_source)`
unfolded from a given source index. -/
def enumerate_from (start : Nat) (predictions : List (List Detection))
    (excluded_source : Option Nat) : List (Nat × Detection) :=
  match predictions with
  | [] => []
  | detections :: rest =>
    (if excluded_source = some start then [] else detections.map (fun d => (start, d)))
      ++ enumerate_from (start + 1) rest excluded_source

/-- Mirrors `enumerate_detections`: yields `(source_id, detection)` pairs in source
order, then detection order, skipping the excluded source. -/
def enumerate_detections (predictions : List (List Detection))
    (excluded_source : Option Nat) : List (Nat × Detection) :=
  enumerate_from 0 predictions excluded_source

/-- One iteration of the loop body of
`get_detections_from_different_sources_with_max_overlap`: skip consumed
candidates, skip class mismatches when class-aware, skip IoU below or at the
threshold, and update the per-source best entry only on strictly larger IoU. -/
def consider_candidate (detection : Detection) (iou_threshold : ℚ) (class_aware : Bool)
    (detections_already_considered : Finset String)
    (current_max_overlap : List (Nat × (Detection × ℚ))) (entry : Nat × Detection) :
    List (Nat × (Detection × ℚ)) :=
  let other_source := entry.1
  let other_detection := entry.2
  if other_detection.detection_id ∈ detections_already_considered then
    current_max_overlap
  else if class_aware ∧ detection.cls ≠ other_detection.cls then
    current_max_overlap
  else
    let iou_value := calculate_iou detection other_detection
    if iou_value ≤ iou_threshold then
      current_max_overlap
    else
      match assocGet current_max_overlap other_source with
      | none => assocSet current_max_overlap other_source (other_detection, iou_value)
      | some previous =>
        if previous.2 < iou_value then
          assocSet current_max_overlap other_source (other_detection, iou_value)
        else
          current_max_overlap

/-- Mirrors `get_detections_from_different_sources_with_max_overlap`: folds the
loop body over all detections of the other sources, producing the Python dict
`other_source -> (detection, iou)` as an ordered association list. -/
def get_detections_from_different_sources_with_max_overlap (detection : Detection)
    (source : Nat) (predictions : List (List Detection)) (iou_threshold : ℚ)
    (class_aware : Bool) (detections_already_considered : Finset String) :
    List (Nat × (Detection × ℚ)) :=
  (enumerate_detections predictions (some source)).foldl
    (consider_candidate detection iou_threshold class_aware detections_already_considered) []

/-- Mirrors `get_majority_class`: `Counter.most_common(1)` returns the class with
the largest multiplicity, ties broken by first occurrence (Counter preserves
first-insertion order and `most_common` sorts stably); the carried `class_id`
is that of the first detection bearing the winning class. -/
def get_majority_class (detections : List Detection) : String × ℤ :=
  let names := detections.map (fun d => d.cls)
  let distinct := names.dedup
  let most_common_class_name :=
    distinct.foldl (fun best c => if names.count best < names.count c then c else best)
      (distinct.headD "")
  let class_id :=
    ((detections.filter (fun d => d.cls == most_common_class_name)).headD default).class_id
  (most_common_class_name, class_id)

/-- Mirrors `get_class_of_most_confident_detection`: the first detection whose
confidence equals the maximal confidence. -/
def get_class_of_most_confident_detection (detections : List Detection) : String × ℤ :=
  let max_confidence :=
    aggregate_field_values (detections.map (fun d => d.confidence)) AggregationMode.max
  let most_confident :=
    (detections.filter (fun d => decide (d.confidence = max_confidence))).headD default
  (most_confident.cls, most_confident.class_id)

/-- Mirrors `get_class_of_least_confident_detection`. -/
def get_class_of_least_confident_detection (detections : List Detection) : String × ℤ :=
  let min_confidence :=
    aggregate_field_values (detections.map (fun d => d.confidence)) AggregationMode.min
  let least_confident :=
    (detections.filter (fun d => decide (d.confidence = min_confidence))).headD default
  (least_confident.cls, least_confident.class_id)

/-- Mirrors the dispatch table `AGGREGATION_MODE2CLASS_SELECTOR`. -/
def AGGREGATION_MODE2CLASS_SELECTOR : AggregationMode → List Detection → String × ℤ
  | AggregationMode.max => get_class_of_most_confident_detection
  | AggregationMode.min => get_class_of_least_confident_detection
  | AggregationMode.average => get_majority_class

/-- Python `round()`: round half to even, returning an integer. -/
def pyRound (q : ℚ) : ℤ :=
  if q - Int.floor q < 1 / 2 then Int.floor q
  else if 1 / 2 < q - Int.floor q then Int.floor q + 1
  else if 2 ∣ Int.floor q then Int.floor q else Int.floor q + 1

/-- Mirrors `get_average_bounding_box`: `round(mean(field))` for each of
`x`, `y`, `width`, `height`. -/
def get_average_bounding_box (detections : List Detection) : ℚ × ℚ × ℚ × ℚ :=
  ((pyRound (aggregate_field_values (detections.map (fun d => d.x)) AggregationMode.average) : ℚ),
   (pyRound (aggregate_field_values (detections.map (fun d => d.y)) AggregationMode.average) : ℚ),
   (pyRound (aggregate_field_values (detections.map (fun d => d.width)) AggregationMode.average) : ℚ),
   (pyRound (aggregate_field_values (detections.map (fun d => d.height)) AggregationMode.average) : ℚ))

/-- Mirrors `get_smallest_bounding_box`: whole box of the first detection whose
`height * width` size equals the minimal size. -/
def get_smallest_bounding_box (detections : List Detection) : ℚ × ℚ × ℚ × ℚ :=
  let detection_sizes := get_detection_sizes detections
  let smallest_size := aggregate_field_values detection_sizes AggregationMode.min
  let matching_detection_id := detection_sizes.findIdx (fun v => decide (v = smallest_size))
  let matching_detection := detections.getD matching_detection_id default
  (matching_detection.x, matching_detection.y,
   matching_detection.width, matching_detection.height)

/-- Mirrors `get_largest_bounding_box`: whole box of the first detection whose
`height * width` size equals the maximal size. -/
def get_largest_bounding_box (detections : List Detection) : ℚ × ℚ × ℚ × ℚ :=
  let detection_sizes := get_detection_sizes detections
  let largest_size := aggregate_field_values detection_sizes AggregationMode.max
  let matching_detection_id := detection_sizes.findIdx (fun v => decide (v = largest_size))
  let matching_detection := detections.getD matching_detection_id default
  (matching_detection.x, matching_detection.y,
   matching_detection.width, matching_detection.height)

/-- Mirrors the dispatch table `AGGREGATION_MODE2BOXES_AGGREGATOR`. -/
def AGGREGATION_MODE2BOXES_AGGREGATOR : AggregationMode → List Detection → ℚ × ℚ × ℚ × ℚ
  | AggregationMode.max => get_largest_bounding_box
  | AggregationMode.min => get_smallest_bounding_box
  | AggregationMode.average => get_average_bounding_box

/-- Mirrors `merge_detections`.  `uuid4()` generates an opaque fresh identifier;
merged-detection identifiers are excluded from every determinism property, so the
embedding fixes the placeholder string below. -/
def merge_detections (detections : List Detection)
    (confidence_aggregation_mode boxes_aggregation_mode : AggregationMode) : Detection :=
  let selected_class := AGGREGATION_MODE2CLASS_SELECTOR confidence_aggregation_mode detections
  let box := AGGREGATION_MODE2BOXES_AGGREGATOR boxes_aggregation_mode detections
  { parent_id := (detections.headD default).parent_id
    detection_id := "fresh-uuid4"
    cls := selected_class.1
    class_id := selected_class.2
    confidence :=
      aggregate_field_values (detections.map (fun d => d.confidence))
        confidence_aggregation_mode
    x := box.1
    y := box.2.1
    width := box.2.2.1
    height := box.2.2.2 }

/-- Mirrors `get_consensus_for_single_detection`: skip consumed seeds, collect the
per-source best overlaps, apply the required-votes check, merge, apply the
confidence check, and only then mark the group's members consumed. -/
def get_consensus_for_single_detection (detection : Detection) (source_id : Nat)
    (predictions : List (List Detection)) (iou_threshold : ℚ) (class_aware : Bool)
    (required_votes : Nat) (confidence : ℚ)
    (detections_merge_confidence_aggregation
     detections_merge_coordinates_aggregation : AggregationMode)
    (detections_already_considered : Finset String) : List Detection × Finset String :=
  if detection.detection_id ∈ detections_already_considered then
    ([], detections_already_considered)
  else
    let detections_with_max_overlap :=
      get_detections_from_different_sources_with_max_overlap detection source_id
        predictions iou_threshold class_aware detections_already_considered
    if detections_with_max_overlap.length < required_votes - 1 then
      ([], detections_already_considered)
    else
      let detections_to_merge :=
        detection :: detections_with_max_overlap.map (fun e => e.2.1)
      let merged_detection :=
        merge_detections detections_to_merge detections_merge_confidence_aggregation
          detections_merge_coordinates_aggregation
      if merged_detection.confidence < confidence then
        ([], detections_already_considered)
      else
        ([merged_detection],
         detections_with_max_overlap.foldl
           (fun s e => insert e.2.1.detection_id s)
           (insert detection.detection_id detections_already_considered))

/-- Mirrors `does_not_detected_objects_in_any_source`. -/
def does_not_detected_objects_in_any_source (predictions : List (List Detection)) : Bool :=
  predictions.all (fun p => p.isEmpty)

/-- Error message raised when sources disagree on `parent_id`. -/
def parentMismatchMessage : String :=
  "Missmatch in predictions - detections are assigned different parent identifiers"

/-- Error message for Python's IndexError on an empty prediction set (unreachable
behind the all-empty short circuit). -/
def parentIndexErrorMessage : String := "list index out of range"

/-- Mirrors `get_parent_id_of_predictions_from_different_sources`: builds the set
of distinct parent ids; errors when more than one, otherwise returns the single
member (Python `list(set)[0]`, an IndexError when the set is empty). -/
def get_parent_id_of_predictions_from_different_sources
    (predictions : List (List Detection)) : Except String String :=
  let encountered_parent_ids := ((predictions.flatten).map (fun d => d.parent_id)).dedup
  if 1 < encountered_parent_ids.length then
    Except.error parentMismatchMessage
  else
    match encountered_parent_ids with
    | p :: _ => Except.ok p
    | [] => Except.error parentIndexErrorMessage

/-- Mirrors `filter_predictions`: restrict every source to the allow-listed
class names when `classes_to_consider` is given. -/
def filter_predictions (predictions : List (List Detection))
    (classes_to_consider : Option (List String)) : List (List Detection) :=
  match classes_to_consider with
  | none => predictions
  | some classes =>
    predictions.map (fun detections =>
      detections.filter (fun d => classes.contains d.cls))

/-- Mirrors `check_objects_presence_in_consensus_predictions` (enterprise
variant, which short-circuits on an empty consensus list). -/
def check_objects_presence_in_consensus_predictions (consensus_detections : List Detection)
    (class_aware : Bool) (aggregation_mode : AggregationMode)
    (required_objects : RequiredObjects) : Bool × List (String × ℚ) :=
  if consensus_detections.length = 0 then (false, [])
  else
    let required₁ :=
      match required_objects with
      | RequiredObjects.noRequirement => RequiredObjects.count 0
      | r => r
    let required₂ :=
      match required₁, class_aware with
      | RequiredObjects.byClass m, false => RequiredObjects.count (m.map (fun e => e.2)).sum
      | r, _ => r
    let failsIntCheck : Bool :=
      match required₂ with
      | RequiredObjects.count n => decide ((consensus_detections.length : ℤ) < n)
      | _ => false
    if failsIntCheck then (false, [])
    else if class_aware = false then
      (true, [("any_object",
        aggregate_field_values (consensus_detections.map (fun d => d.confidence))
          aggregation_mode)])
    else
      let classes := (consensus_detections.map (fun d => d.cls)).dedup
      let class2detections := fun c => consensus_detections.filter (fun d => d.cls == c)
      let failsClassCheck :=
        match required₂ with
        | RequiredObjects.byClass m =>
          m.any (fun e => decide (((class2detections e.1).length : ℤ) < e.2))
        | _ => false
      if failsClassCheck then (false, [])
      else
        (true, classes.map (fun c =>
          (c, aggregate_field_values ((class2detections c).map (fun d => d.confidence))
            aggregation_mode)))

/-- A candidate qualifies for matching against a seed exactly when it is not yet
consumed, shares the seed's class when class-aware matching is on, and its IoU
with the seed strictly exceeds the threshold (the three `continue` guards of
`get_detections_from_different_sources_with_max_overlap`). -/
def qualifies (detection : Detection) (iou_threshold : ℚ) (class_aware : Bool)
    (detections_already_considered : Finset String) (c : Detection) : Prop :=
  c.detection_id ∉ detections_already_considered ∧
  (class_aware = true → detection.cls = c.cls) ∧
  iou_threshold < calculate_iou detection c

instance (detection : Detection) (iou_threshold : ℚ) (class_aware : Bool)
    (detections_already_considered : Finset String) (c : Detection) :
    Decidable (qualifies detection iou_threshold class_aware
      detections_already_considered c) := by
  unfold qualifies; infer_instance

/-- The per-source action of one candidate on the current best entry of its own
source: the same guards as `consider_candidate`, restricted to a single key. -/
def best_candidate_step (detection : Detection) (iou_threshold : ℚ) (class_aware : Bool)
    (detections_already_considered : Finset String)
    (acc : Option (Detection × ℚ)) (c : Detection) : Option (Detection × ℚ) :=
  if c.detection_id ∈ detections_already_considered then acc
  else if class_aware ∧ detection.cls ≠ c.cls then acc
  else if calculate_iou detection c ≤ iou_threshold then acc
  else
    match acc with
    | none => some (c, calculate_iou detection c)
    | some previous =>
      if previous.2 < calculate_iou detection c then some (c, calculate_iou detection c)
      else acc

/-- Best qualifying candidate of one source, scanned left to right: replaced only
on strictly larger IoU, so the first-encountered candidate wins ties. -/
def best_candidate (detection : Detection) (iou_threshold : ℚ) (class_aware : Bool)
    (detections_already_considered : Finset String) (candidates : List Detection) :
    Option (Detection × ℚ) :=
  candidates.foldl
    (best_candidate_step detection iou_threshold class_aware detections_already_considered)
    none

/-- Keep the entry with the larger IoU; on a tie keep the left (earlier) one. -/
def option_merge (a b : Option (Detection × ℚ)) : Option (Detection × ℚ) :=
  match a, b with
  | none, b => b
  | a, none => a
  | some p, some q => if p.2 < q.2 then some q else some p

/-- Ghost lineage of the consensus group seeded by `detection`: the seed's raw
detection id followed by the ids of the matched detections, in dict-value order.
This is exactly the id set `get_consensus_for_single_detection` adds to the
consumption set when the group is accepted. -/
def group_lineage (detection : Detection) (source_id : Nat)
    (predictions : List (List Detection)) (iou_threshold : ℚ) (class_aware : Bool)
    (detections_already_considered : Finset String) : List String :=
  detection.detection_id ::
    (get_detections_from_different_sources_with_max_overlap detection source_id predictions
      iou_threshold class_aware detections_already_considered).map
      (fun e => e.2.1.detection_id)

/-- Instrumented variant of the consensus-loop body: records the lineage of every
group that produced an output merged detection, while threading the same
consumption set as the real loop. -/
def lineage_step (predictions : List (List Detection)) (iou_threshold : ℚ)
    (class_aware : Bool) (required_votes : Nat) (confidence : ℚ)
    (detections_merge_confidence_aggregation
     detections_merge_coordinates_aggregation : AggregationMode)
    (state : List (List String) × Finset String) (entry : Nat × Detection) :
    List (List String) × Finset String :=
  let r := get_consensus_for_single_detection entry.2 entry.1 predictions iou_threshold
    class_aware required_votes confidence detections_merge_confidence_aggregation
    detections_merge_coordinates_aggregation state.2
  ((if r.1.isEmpty then state.1
    else state.1 ++ [group_lineage entry.2 entry.1 predictions iou_threshold class_aware
      state.2]), r.2)

/-- Lineages (lists of raw detection ids) of all groups that contributed an output
merged detection for one batch element, in output order. -/
def consensus_lineages (predictions : List (List Detection)) (iou_threshold : ℚ)
    (class_aware : Bool) (required_votes : Nat) (confidence : ℚ)
    (detections_merge_confidence_aggregation
     detections_merge_coordinates_aggregation : AggregationMode) : List (List String) :=
  ((enumerate_detections predictions none).foldl
    (lineage_step predictions iou_threshold class_aware required_votes confidence
      detections_merge_confidence_aggregation detections_merge_coordinates_aggregation)
    ([], (∅ : Finset String))).1

/-- One iteration of the consensus loop in `resolve_batch_consensus`: run the
single-detection grouping against the current consumption set and append its
output. -/
def consensus_step (predictions : List (List Detection)) (iou_threshold : ℚ)
    (class_aware : Bool) (required_votes : Nat) (confidence : ℚ)
    (detections_merge_confidence_aggregation
     detections_merge_coordinates_aggregation : AggregationMode)
    (state : List Detection × Finset String) (entry : Nat × Detection) :
    List Detection × Finset String :=
  let r := get_consensus_for_single_detection entry.2 entry.1 predictions iou_threshold
    class_aware required_votes confidence detections_merge_confidence_aggregation
    detections_merge_coordinates_aggregation state.2
  (state.1 ++ r.1, r.2)

/-- Mirrors `resolve_batch_consensus` for one batch element: all-empty short
circuit, parent-id validation (the raised `ExecutionGraphError` is modelled as
`Except.error`), class filtering, the sequential consensus loop threading the
consumption set, and the presence evaluation. -/
def resolve_batch_consensus (predictions : List (List Detection)) (required_votes : Nat)
    (class_aware : Bool) (iou_threshold : ℚ) (confidence : ℚ)
    (classes_to_consider : Option (List String)) (required_objects : RequiredObjects)
    (presence_confidence_aggregation detections_merge_confidence_aggregation
     detections_merge_coordinates_aggregation : AggregationMode) :
    Except String (String × Bool × List (String × ℚ) × List Detection) :=
  if does_not_detected_objects_in_any_source predictions then
    Except.ok ("undefined", false, [], [])
  else
    match get_parent_id_of_predictions_from_different_sources predictions with
    | Except.error e => Except.error e
    | Except.ok parent_id =>
      let filtered := filter_predictions predictions classes_to_consider
      let final_state :=
        (enumerate_detections filtered none).foldl
          (consensus_step filtered iou_threshold class_aware required_votes confidence
            detections_merge_confidence_aggregation
            detections_merge_coordinates_aggregation)
          ([], (∅ : Finset String))
      let presence :=
        check_objects_presence_in_consensus_predictions final_state.1 class_aware
          presence_confidence_aggregation required_objects
      Except.ok (parent_id, presence.1, presence.2, final_state.1)

/-! ## Concrete detections used in witnesses and counterexamples -/

/-- A 10 by 10 cat detection centred at (5, 5), confidence 9/10, id `a`. -/
def exCat : Detection :=
  { x := 5, y := 5, width := 10, height := 10, confidence := 9 / 10,
    cls := "cat", class_id := 1, parent_id := "p", detection_id := "a" }

/-- An 8 by 8 cat detection centred at (5, 5), confidence 8/10, id `b`
(IoU with `exCat` is 16/25). -/
def exCatB : Detection :=
  { x := 5, y := 5, width := 8, height := 8, confidence := 8 / 10,
    cls := "cat", class_id := 1, parent_id := "p", detection_id := "b" }

/-- A low-confidence (1/2) copy of the 10 by 10 cat box, id `low`. -/
def exLow : Detection :=
  { x := 5, y := 5, width := 10, height := 10, confidence := 1 / 2,
    cls := "cat", class_id := 1, parent_id := "p", detection_id := "low" }

/-- A detection carrying a different `parent_id` (`q`), id `c`. -/
def exOther : Detection :=
  { x := 5, y := 5, width := 10, height := 10, confidence := 9 / 10,
    cls := "cat", class_id := 1, parent_id := "q", detection_id := "c" }

/-- A degenerate zero-area box: width 0, height 5. -/
def exDegenA : Detection :=
  { x := 0, y := 0, width := 0, height := 5, confidence := 1 / 2,
    cls := "cat", class_id := 1, parent_id := "p", detection_id := "dga" }

/-- A degenerate zero-area box: width 4, height 0, overlapping `exDegenA` in x. -/
def exDegenB : Detection :=
  { x := 0, y := 0, width := 4, height := 0, confidence := 1 / 2,
    cls := "cat", class_id := 1, parent_id := "p", detection_id := "dgb" }

/-- A unit box at the origin corner used for the rounding counterexample. -/
def exUnit0 : Detection :=
  { x := 0, y := 0, width := 0, height := 0, confidence := 1 / 2,
    cls := "cat", class_id := 1, parent_id := "p", detection_id := "u0" }

/-- A unit-offset box used for the rounding counterexample. -/
def exUnit1 : Detection :=
  { x := 1, y := 1, width := 1, height := 1, confidence := 1 / 2,
    cls := "cat", class_id := 1, parent_id := "p", detection_id := "u1" }

/-! ## Generic helper lemmas -/

theorem findIdx_spec {α : Type} (p : α → Bool) (d : α) :
    ∀ (l : List α), (∃ x ∈ l, p x) →
      l.findIdx p < l.length ∧ p (l.getD (l.findIdx p) d) = true ∧
      ∀ j, j < l.findIdx p → p (l.getD j d) = false := by
  intro l
  induction l with
  | nil => rintro ⟨x, hx, _⟩; cases hx
  | cons a t ih =>
    rintro ⟨x, hx, hpx⟩
    by_cases hpa : p a
    · refine ⟨?_, ?_, ?_⟩
      · simp [List.findIdx_cons, hpa]
      · simp [List.findIdx_cons, hpa]
      · intro j hj
        simp [List.findIdx_cons, hpa] at hj
    · have hxt : x ∈ t := by
        rw [List.mem_cons] at hx
        rcases hx with hx | hx
        · exact absurd (hx ▸ hpx) hpa
        · exact hx
      obtain ⟨h₁, h₂, h₃⟩ := ih ⟨x, hxt, hpx⟩
      refine ⟨?_, ?_, ?_⟩
      · simpa [List.findIdx_cons, hpa, Nat.succ_lt_succ_iff] using h₁
      · simpa [List.findIdx_cons, hpa] using h₂
      · intro j hj
        simp only [List.findIdx_cons, hpa, cond_false] at hj
        match j with
        | 0 => simpa using hpa
        | Nat.succ k =>
          simpa using h₃ k (by omega)

theorem foldl_max_bounds (l : List ℚ) : ∀ (a : ℚ),
    a ≤ l.foldl max a ∧ (∀ x ∈ l, x ≤ l.foldl max a) ∧
    (l.foldl max a = a ∨ l.foldl max a ∈ l) := by
  induction l with
  | nil => intro a; simp
  | cons b t ih =>
    intro a
    obtain ⟨h₁, h₂, h₃⟩ := ih (max a b)
    have hfold : (b :: t).foldl max a = t.foldl max (max a b) := by
      simp [List.foldl_cons]
    refine ⟨?_, ?_, ?_⟩
    · rw [hfold]; exact le_trans (le_max_left a b) h₁
    · intro x hx
      rw [List.mem_cons] at hx
      rcases hx with hx | hx
      · rw [hfold]; exact le_trans (hx ▸ le_max_right a b) h₁
      · rw [hfold]; exact h₂ x hx
    · rcases h₃ with h₃ | h₃
      · rcases max_choice a b with hc | hc
        · left; rw [hfold, h₃, hc]
        · right; rw [hfold, h₃, hc]; exact List.mem_cons_self b t
      · right; rw [hfold]; exact List.mem_cons_of_mem b h₃

theorem foldl_min_bounds (l : List ℚ) : ∀ (a : ℚ),
    l.foldl min a ≤ a ∧ (∀ x ∈ l, l.foldl min a ≤ x) ∧
    (l.foldl min a = a ∨ l.foldl min a ∈ l) := by
  induction l with
  | nil => intro a; simp
  | cons b t ih =>
    intro a
    obtain ⟨h₁, h₂, h₃⟩ := ih (min a b)
    have hfold : (b :: t).foldl min a = t.foldl min (min a b) := by
      simp [List.foldl_cons]
    refine ⟨?_, ?_, ?_⟩
    · rw [hfold]; exact le_trans h₁ (min_le_left a b)
    · intro x hx
      rw [List.mem_cons] at hx
      rcases hx with hx | hx
      · rw [hfold]; exact le_trans h₁ (hx ▸ min_le_right a b)
      · rw [hfold]; exact h₂ x hx
    · rcases h₃ with h₃ | h₃
      · rcases min_choice a b with hc | hc
        · left; rw [hfold, h₃, hc]
        · right; rw [hfold, h₃, hc]; exact List.mem_cons_self b t
      · right; rw [hfold]; exact List.mem_cons_of_mem b h₃

theorem dedup_eq_singleton_of_all_eq {α : Type} [DecidableEq α] (p : α) :
    ∀ (l : List α), l ≠ [] → (∀ x ∈ l, x = p) → l.dedup = [p] := by
  intro l
  induction l with
  | nil => intro h; exact absurd rfl h
  | cons a t ih =>
    intro _ hall
    have ha : a = p := hall a (List.mem_cons_self a t)
    cases t with
    | nil => simp [ha, List.dedup_cons_of_not_mem]
    | cons b u =>
      have ht : (b :: u).dedup = [p] := by
        refine ih (by simp) ?_
        intro x hx; exact hall x (List.mem_cons_of_mem a hx)
      have hmem : a ∈ b :: u := by
        have hp : p ∈ (b :: u).dedup := by rw [ht]; exact List.mem_cons_self p []
        rw [ha]
        exact List.mem_dedup.1 hp
      rw [List.dedup_cons_of_mem hmem, ht]

theorem one_lt_dedup_length_of_ne {α : Type} [DecidableEq α] {l : List α} {a b : α}
    (ha : a ∈ l) (hb : b ∈ l) (hab : a ≠ b) : 1 < l.dedup.length := by
  have ha' : a ∈ l.dedup := List.mem_dedup.2 ha
  have hb' : b ∈ l.dedup := List.mem_dedup.2 hb
  match h : l.dedup with
  | [] => rw [h] at ha'; cases ha'
  | [x] =>
    rw [h] at ha' hb'
    simp at ha' hb'
    exact absurd (ha'.trans hb'.symm) hab
  | x :: y :: t => simp

/-! ## C9 and C10 -/

/-- C9: the IoU computation is total: whenever the union area
(`area a + area b - intersection`, with areas taken from the `height`/`width`
fields and the intersection from the interconverted corner coordinates) is zero,
`calculate_iou` returns 0 rather than dividing by zero; in particular the IoU of
two degenerate (zero-area) boxes is always 0. -/
theorem calculate_iou_total_zero_union (a b : Detection) :
    (a.height * a.width + b.height * b.width -
        max 0 (min (a.x + a.width / 2) (b.x + b.width / 2) -
               max (a.x - a.width / 2) (b.x - b.width / 2)) *
        max 0 (min (a.y + a.height / 2) (b.y + b.height / 2) -
               max (a.y - a.height / 2) (b.y - b.height / 2)) = 0 →
      calculate_iou a b = 0) ∧
    (a.height * a.width = 0 → b.height * b.width = 0 → calculate_iou a b = 0) := by
  have main : ∀ hu : a.height * a.width + b.height * b.width -
      max 0 (min (a.x + a.width / 2) (b.x + b.width / 2) -
             max (a.x - a.width / 2) (b.x - b.width / 2)) *
      max 0 (min (a.y + a.height / 2) (b.y + b.height / 2) -
             max (a.y - a.height / 2) (b.y - b.height / 2)) = 0,
      calculate_iou a b = 0 := by
    intro hu
    unfold calculate_iou detection_to_xyxy
    simp only
    rw [if_pos hu]
  refine ⟨main, ?_⟩
  intro ha hb
  have hinter : max 0 (min (a.x + a.width / 2) (b.x + b.width / 2) -
             max (a.x - a.width / 2) (b.x - b.width / 2)) *
      max 0 (min (a.y + a.height / 2) (b.y + b.height / 2) -
             max (a.y - a.height / 2) (b.y - b.height / 2)) = 0 := by
    rcases mul_eq_zero.1 ha with h | h
    · have h1 : min (a.y + a.height / 2) (b.y + b.height / 2) ≤ a.y + a.height / 2 :=
        min_le_left _ _
      have h2 : a.y - a.height / 2 ≤ max (a.y - a.height / 2) (b.y - b.height / 2) :=
        le_max_left _ _
      have h0 : max 0 (min (a.y + a.height / 2) (b.y + b.height / 2) -
          max (a.y - a.height / 2) (b.y - b.height / 2)) = 0 :=
        max_eq_left (by linarith)
      rw [h0, mul_zero]
    · have h1 : min (a.x + a.width / 2) (b.x + b.width / 2) ≤ a.x + a.width / 2 :=
        min_le_left _ _
      have h2 : a.x - a.width / 2 ≤ max (a.x - a.width / 2) (b.x - b.width / 2) :=
        le_max_left _ _
      have h0 : max 0 (min (a.x + a.width / 2) (b.x + b.width / 2) -
          max (a.x - a.width / 2) (b.x - b.width / 2)) = 0 :=
        max_eq_left (by linarith)
      rw [h0, zero_mul]
  exact main (by rw [hinter, ha, hb]; ring)

/-- Witness for C9: two concrete degenerate boxes (one of zero width, one of
zero height) have zero areas, and their computed IoU is 0. -/
theorem calculate_iou_total_zero_union_witness :
    exDegenA.height * exDegenA.width = 0 ∧ exDegenB.height * exDegenB.width = 0 ∧
    calculate_iou exDegenA exDegenB = 0 :=
  ⟨by norm_num [exDegenA], by norm_num [exDegenB],
   (calculate_iou_total_zero_union exDegenA exDegenB).2 (by norm_num [exDegenA])
     (by norm_num [exDegenB])⟩

/-- C10: with zero merged consensus detections, the (enterprise) presence
evaluator reports `object_present = False` with an empty confidence map for every
combination of `class_aware`, aggregation mode and `required_objects` (including
`None` and integer 0). -/
theorem no_consensus_detections_presence_false (class_aware : Bool)
    (aggregation_mode : AggregationMode) (required_objects : RequiredObjects) :
    check_objects_presence_in_consensus_predictions [] class_aware aggregation_mode
      required_objects = (false, []) := rfl

/-! ## Parent-id validation helpers, C6 and C5 -/

theorem get_parent_id_ok_of_all_eq (predictions : List (List Detection)) (p : String)
    (hne : ∃ d, d ∈ predictions.flatten) (hall : ∀ d ∈ predictions.flatten, d.parent_id = p) :
    get_parent_id_of_predictions_from_different_sources predictions = Except.ok p := by
  obtain ⟨d, hd⟩ := hne
  have hdedup : ((predictions.flatten).map (fun d => d.parent_id)).dedup = [p] := by
    refine dedup_eq_singleton_of_all_eq p _ ?_ ?_
    · simp only [ne_eq, List.map_eq_nil_iff]
      intro h
      rw [h] at hd; cases hd
    · intro x hx
      rw [List.mem_map] at hx
      obtain ⟨e, he, hex⟩ := hx
      rw [← hex]; exact hall e he
  unfold get_parent_id_of_predictions_from_different_sources
  rw [hdedup]
  simp

theorem get_parent_id_error_of_mismatch (predictions : List (List Detection))
    (h : ∃ a ∈ predictions.flatten, ∃ b ∈ predictions.flatten, a.parent_id ≠ b.parent_id) :
    get_parent_id_of_predictions_from_different_sources predictions
      = Except.error parentMismatchMessage := by
  obtain ⟨a, ha, b, hb, hab⟩ := h
  have hlen : 1 < ((predictions.flatten).map (fun d => d.parent_id)).dedup.length :=
    one_lt_dedup_length_of_ne (List.mem_map_of_mem _ ha) (List.mem_map_of_mem _ hb) hab
  unfold get_parent_id_of_predictions_from_different_sources
  rw [if_pos hlen]

theorem not_all_empty_of_mem {predictions : List (List Detection)} {d : Detection}
    (hd : d ∈ predictions.flatten) :
    does_not_detected_objects_in_any_source predictions = false := by
  rw [List.mem_flatten] at hd
  obtain ⟨l, hl, hdl⟩ := hd
  unfold does_not_detected_objects_in_any_source
  rw [List.all_eq_false]
  refine ⟨l, hl, ?_⟩
  simp only [List.isEmpty_eq_true]
  intro h
  rw [h] at hdl; cases hdl

/-- C6: if the detections contributed by all sources to one batch element carry
more than one distinct `parent_id`, `get_parent_id_of_predictions_from_different_sources`
fails with the parent-mismatch error and `resolve_batch_consensus` propagates it
(never fusing detections of different images); when all detections share exactly
one `parent_id`, that value is returned. -/
theorem parent_id_mismatch_detection (predictions : List (List Detection))
    (required_votes : Nat) (class_aware : Bool) (iou_threshold confidence : ℚ)
    (classes_to_consider : Option (List String)) (required_objects : RequiredObjects)
    (pca dmca dmcoa : AggregationMode) :
    ((∃ a ∈ predictions.flatten, ∃ b ∈ predictions.flatten, a.parent_id ≠ b.parent_id) →
      get_parent_id_of_predictions_from_different_sources predictions
        = Except.error parentMismatchMessage ∧
      resolve_batch_consensus predictions required_votes class_aware iou_threshold
        confidence classes_to_consider required_objects pca dmca dmcoa
        = Except.error parentMismatchMessage) ∧
    (∀ p, (∃ d, d ∈ predictions.flatten) → (∀ d ∈ predictions.flatten, d.parent_id = p) →
      get_parent_id_of_predictions_from_different_sources predictions = Except.ok p) := by
  constructor
  · intro h
    have herr := get_parent_id_error_of_mismatch predictions h
    refine ⟨herr, ?_⟩
    obtain ⟨a, ha, _⟩ := h
    unfold resolve_batch_consensus
    rw [not_all_empty_of_mem ha]
    simp only [Bool.false_eq_true, if_false]
    rw [herr]
  · intro p hne hall
    exact get_parent_id_ok_of_all_eq predictions p hne hall

/-- Witness for C6: two sources whose single detections carry parent ids `p` and
`q` make the engine fail with the mismatch error, and two detections sharing
parent id `p` yield `Except.ok p`. -/
theorem parent_id_mismatch_detection_witness :
    get_parent_id_of_predictions_from_different_sources [[exCat], [exOther]]
      = Except.error parentMismatchMessage ∧
    resolve_batch_consensus [[exCat], [exOther]] 2 true (3 / 10) 0 none
      RequiredObjects.noRequirement AggregationMode.max AggregationMode.average
      AggregationMode.average = Except.error parentMismatchMessage ∧
    get_parent_id_of_predictions_from_different_sources [[exCat], [exCatB]]
      = Except.ok "p" := by
  have h₁ := (parent_id_mismatch_detection [[exCat], [exOther]] 2 true (3 / 10) 0 none
    RequiredObjects.noRequirement AggregationMode.max AggregationMode.average
    AggregationMode.average).1
    ⟨exCat, by simp, exOther, by simp, by simp [exCat, exOther]⟩
  have h₂ := (parent_id_mismatch_detection [[exCat], [exCatB]] 2 true (3 / 10) 0 none
    RequiredObjects.noRequirement AggregationMode.max AggregationMode.average
    AggregationMode.average).2 "p" ⟨exCat, by simp⟩
    (by intro d hd; simp at hd; rcases hd with h | h <;> simp [h, exCat, exCatB])
  exact ⟨h₁.1, h₁.2, h₂⟩

theorem enumerate_from_eq_nil_of_all_empty (excluded_source : Option Nat) :
    ∀ (predictions : List (List Detection)) (start : Nat),
      (∀ l ∈ predictions, l = []) →
      enumerate_from start predictions excluded_source = [] := by
  intro predictions
  induction predictions with
  | nil => intro start _; rfl
  | cons d rest ih =>
    intro start hall
    unfold enumerate_from
    rw [hall d (List.mem_cons_self d rest)]
    rw [ih (start + 1) (fun l hl => hall l (List.mem_cons_of_mem d hl))]
    simp

/-- C5 (amended): a batch element whose sources supply zero detections yields
`("undefined", False, {}, [])` for every configuration; when detections exist but
the `classes_to_consider` filter removes all of them, `object_present` is `False`,
`presence_confidence` is empty and the consensus list is empty, but `parent_id`
is the sources' shared parent id — not `"undefined"`. -/
theorem empty_input_law (predictions : List (List Detection))
    (required_votes : Nat) (class_aware : Bool) (iou_threshold confidence : ℚ)
    (classes_to_consider : Option (List String)) (required_objects : RequiredObjects)
    (pca dmca dmcoa : AggregationMode) :
    ((∀ l ∈ predictions, l = []) →
      resolve_batch_consensus predictions required_votes class_aware iou_threshold
        confidence classes_to_consider required_objects pca dmca dmcoa
        = Except.ok ("undefined", false, [], [])) ∧
    (∀ p, (∃ d, d ∈ predictions.flatten) →
      (∀ d ∈ predictions.flatten, d.parent_id = p) →
      (∀ l ∈ filter_predictions predictions classes_to_consider, l = []) →
      resolve_batch_consensus predictions required_votes class_aware iou_threshold
        confidence classes_to_consider required_objects pca dmca dmcoa
        = Except.ok (p, false, [], [])) := by
  constructor
  · intro hall
    unfold resolve_batch_consensus
    have hempty : does_not_detected_objects_in_any_source predictions = true := by
      unfold does_not_detected_objects_in_any_source
      rw [List.all_eq_true]
      intro l hl
      rw [hall l hl]
      rfl
    rw [hempty]
    simp
  · intro p hne hall hfilter
    obtain ⟨d, hd⟩ := hne
    unfold resolve_batch_consensus
    rw [not_all_empty_of_mem hd]
    simp only [Bool.false_eq_true, if_false]
    rw [get_parent_id_ok_of_all_eq predictions p ⟨d, hd⟩ hall]
    rw [show enumerate_detections (filter_predictions predictions classes_to_consider) none
          = [] from enumerate_from_eq_nil_of_all_empty none _ 0 hfilter]
    simp only [List.foldl_nil]
    rfl

/-- Counterexample for C5: one source contributes a `cat` detection with parent
id `p`, and `classes_to_consider = ["dog"]` filters every detection out.  The
claim requires the result `("undefined", False, {}, [])`, but the code returns
the real parent id `p` in place of `"undefined"` (the all-empty short circuit
runs before filtering, and the parent id is extracted before filtering). -/
theorem filtered_empty_keeps_parent_id_cex :
    resolve_batch_consensus [[exCat]] 1 true (3 / 10) 0 (some ["dog"])
      RequiredObjects.noRequirement AggregationMode.max AggregationMode.average
      AggregationMode.average = Except.ok ("p", false, [], []) ∧
    resolve_batch_consensus [[exCat]] 1 true (3 / 10) 0 (some ["dog"])
      RequiredObjects.noRequirement AggregationMode.max AggregationMode.average
      AggregationMode.average ≠ Except.ok ("undefined", false, [], []) := by
  have h : resolve_batch_consensus [[exCat]] 1 true (3 / 10) 0 (some ["dog"])
      RequiredObjects.noRequirement AggregationMode.max AggregationMode.average
      AggregationMode.average = Except.ok ("p", false, [], []) := by
    simp [resolve_batch_consensus, does_not_detected_objects_in_any_source,
      get_parent_id_of_predictions_from_different_sources, filter_predictions,
      enumerate_detections, enumerate_from, consensus_step,
      check_objects_presence_in_consensus_predictions, exCat,
      List.filter_cons, List.contains, List.elem_cons]
  refine ⟨h, ?_⟩
  rw [h]
  intro hcontra
  have : ("p" : String) = "undefined" := by
    injection hcontra with h1
    exact congrArg Prod.fst h1
  simp at this

/-- Witness for C5: both amended branches at concrete inputs — an all-empty
two-source element yields the undefined result, and the all-filtered element
yields `(p, False, {}, [])`. -/
theorem empty_input_law_witness :
    resolve_batch_consensus ([[], []] : List (List Detection)) 2 true (3 / 10) 0 none
      RequiredObjects.noRequirement AggregationMode.max AggregationMode.average
      AggregationMode.average = Except.ok ("undefined", false, [], []) ∧
    resolve_batch_consensus [[exCat]] 1 true (3 / 10) 0 (some ["dog"])
      RequiredObjects.noRequirement AggregationMode.max AggregationMode.average
      AggregationMode.average = Except.ok ("p", false, [], []) := by
  constructor
  · exact (empty_input_law [[], []] 2 true (3 / 10) 0 none
      RequiredObjects.noRequirement AggregationMode.max AggregationMode.average
      AggregationMode.average).1 (by intro l hl; simp at hl; exact hl)
  · refine (empty_input_law [[exCat]] 1 true (3 / 10) 0 (some ["dog"])
      RequiredObjects.noRequirement AggregationMode.max AggregationMode.average
      AggregationMode.average).2 "p" ⟨exCat, by simp⟩ ?_ ?_
    · intro d hd; simp at hd; simp [hd, exCat]
    · intro l hl
      simp [filter_predictions, List.filter_cons, exCat] at hl
      exact hl

/-! ## Structure of get_consensus_for_single_detection, C3 -/

theorem foldl_insert_eq_union (ids : List String) (C : Finset String) :
    ids.foldl (fun s x => insert x s) C = C ∪ ids.toFinset := by
  induction ids generalizing C with
  | nil => simp
  | cons a t ih =>
    rw [List.foldl_cons, ih (insert a C), List.toFinset_cons]
    ext x
    simp only [Finset.mem_union, Finset.mem_insert, List.mem_toFinset]
    tauto

theorem get_consensus_cases (detection : Detection) (source_id : Nat)
    (predictions : List (List Detection)) (iou_threshold : ℚ) (class_aware : Bool)
    (required_votes : Nat) (confidence : ℚ) (dmca dmcoa : AggregationMode)
    (C : Finset String) :
    get_consensus_for_single_detection detection source_id predictions iou_threshold
      class_aware required_votes confidence dmca dmcoa C = ([], C) ∨
    (detection.detection_id ∉ C ∧
     ¬ ((get_detections_from_different_sources_with_max_overlap detection source_id
          predictions iou_threshold class_aware C).length < required_votes - 1) ∧
     ¬ ((merge_detections (detection ::
          (get_detections_from_different_sources_with_max_overlap detection source_id
            predictions iou_threshold class_aware C).map (fun e => e.2.1))
          dmca dmcoa).confidence < confidence) ∧
     get_consensus_for_single_detection detection source_id predictions iou_threshold
       class_aware required_votes confidence dmca dmcoa C
       = ([merge_detections (detection ::
            (get_detections_from_different_sources_with_max_overlap detection source_id
              predictions iou_threshold class_aware C).map (fun e => e.2.1))
            dmca dmcoa],
          C ∪ (group_lineage detection source_id predictions iou_threshold class_aware
            C).toFinset)) := by
  unfold get_consensus_for_single_detection
  dsimp only
  split_ifs with h1 h2 h3
  · left; rfl
  · left; rfl
  · left; rfl
  · right
    refine ⟨h1, h2, h3, ?_⟩
    have hfold :
        (get_detections_from_different_sources_with_max_overlap detection source_id
          predictions iou_threshold class_aware C).foldl
          (fun s e => insert e.2.1.detection_id s)
          (insert detection.detection_id C)
        = C ∪ (group_lineage detection source_id predictions iou_threshold class_aware
            C).toFinset := by
      rw [show (fun (s : Finset String) (e : Nat × Detection × ℚ) =>
            insert e.2.1.detection_id s)
          = fun s e => (fun s x => insert x s) s ((fun (e : Nat × Detection × ℚ) =>
            e.2.1.detection_id) e) from rfl]
      rw [← List.foldl_map (fun (e : Nat × Detection × ℚ) => e.2.1.detection_id)
        (fun s x => insert x s)]
      rw [foldl_insert_eq_union]
      unfold group_lineage
      rw [List.toFinset_cons]
      ext x
      simp only [Finset.mem_union, Finset.mem_insert, List.mem_toFinset]
      tauto
    rw [hfold]

/-- C3 (amended): when the merged confidence of a vote-accepted group is strictly
below the `confidence` threshold, the group is discarded with no output and the
consumption set is returned unchanged — the member detections are NOT marked
consumed; and every merged detection the matcher outputs has confidence greater
than or equal to the threshold. -/
theorem confidence_floor (detection : Detection) (source_id : Nat)
    (predictions : List (List Detection)) (iou_threshold : ℚ) (class_aware : Bool)
    (required_votes : Nat) (confidence : ℚ) (dmca dmcoa : AggregationMode)
    (C : Finset String) :
    ((merge_detections (detection ::
        (get_detections_from_different_sources_with_max_overlap detection source_id
          predictions iou_threshold class_aware C).map (fun e => e.2.1))
        dmca dmcoa).confidence < confidence →
      get_consensus_for_single_detection detection source_id predictions iou_threshold
        class_aware required_votes confidence dmca dmcoa C = ([], C)) ∧
    (∀ m ∈ (get_consensus_for_single_detection detection source_id predictions
        iou_threshold class_aware required_votes confidence dmca dmcoa C).1,
      confidence ≤ m.confidence) := by
  rcases get_consensus_cases detection source_id predictions iou_threshold class_aware
    required_votes confidence dmca dmcoa C with h | ⟨_, _, hconf, hres⟩
  · constructor
    · intro _; exact h
    · intro m hm
      rw [h] at hm
      cases hm
  · constructor
    · intro hlow; exact absurd hlow hconf
    · intro m hm
      rw [hres] at hm
      simp only [List.mem_singleton] at hm
      rw [hm]
      exact le_of_not_lt hconf

/-- Counterexample for C3: a single source with one low-confidence (1/2) cat
detection, `required_votes = 1` (so the singleton group is vote-accepted) and
confidence threshold 9/10.  The merged confidence 1/2 is below the threshold, the
group is discarded — and the returned consumption set is the unchanged empty set:
the seed's id `low` is NOT in it, contradicting the claim that members "remain
marked consumed". -/
theorem confidence_reject_leaves_ids_unconsumed_cex :
    (merge_detections [exLow] AggregationMode.average AggregationMode.average).confidence
      < 9 / 10 ∧
    get_consensus_for_single_detection exLow 0 [[exLow]] (3 / 10) true 1 (9 / 10)
      AggregationMode.average AggregationMode.average ∅ = ([], ∅) ∧
    exLow.detection_id ∉ (get_consensus_for_single_detection exLow 0 [[exLow]] (3 / 10)
      true 1 (9 / 10) AggregationMode.average AggregationMode.average ∅).2 := by
  have h1 : (merge_detections [exLow] AggregationMode.average
      AggregationMode.average).confidence < 9 / 10 := by
    norm_num [merge_detections, aggregate_field_values, exLow]
  have h2 : get_consensus_for_single_detection exLow 0 [[exLow]] (3 / 10) true 1 (9 / 10)
      AggregationMode.average AggregationMode.average ∅ = ([], ∅) := by
    norm_num [get_consensus_for_single_detection,
      get_detections_from_different_sources_with_max_overlap, enumerate_detections,
      enumerate_from, consider_candidate, merge_detections, aggregate_field_values,
      exLow]
  refine ⟨h1, h2, ?_⟩
  rw [h2]
  simp

/-- Witness for C3: on the same low-confidence input, the amended theorem's
hypothesis (merged confidence below threshold) holds and its conclusions follow. -/
theorem confidence_floor_witness :
    (merge_detections (exLow ::
        (get_detections_from_different_sources_with_max_overlap exLow 0 [[exLow]] (3 / 10)
          true ∅).map (fun e => e.2.1))
        AggregationMode.average AggregationMode.average).confidence < 9 / 10 ∧
    get_consensus_for_single_detection exLow 0 [[exLow]] (3 / 10) true 1 (9 / 10)
      AggregationMode.average AggregationMode.average ∅ = ([], ∅) := by
  have hM : get_detections_from_different_sources_with_max_overlap exLow 0 [[exLow]]
      (3 / 10) true ∅ = [] := by
    norm_num [get_detections_from_different_sources_with_max_overlap,
      enumerate_detections, enumerate_from, consider_candidate, exLow]
  have hconf : (merge_detections (exLow ::
      (get_detections_from_different_sources_with_max_overlap exLow 0 [[exLow]] (3 / 10)
        true ∅).map (fun e => e.2.1))
      AggregationMode.average AggregationMode.average).confidence < 9 / 10 := by
    rw [hM]
    norm_num [merge_detections, aggregate_field_values, exLow]
  exact ⟨hconf,
    (confidence_floor exLow 0 [[exLow]] (3 / 10) true 1 (9 / 10) AggregationMode.average
      AggregationMode.average ∅).1 hconf⟩

/-! ## Box aggregation, C8 -/

theorem getD_map_rat (f : Detection → ℚ) :
    ∀ (l : List Detection) (j : Nat), j < l.length →
      (l.map f).getD j 0 = f (l.getD j default) := by
  intro l
  induction l with
  | nil => intro j hj; cases hj
  | cons a t ih =>
    intro j hj
    match j with
    | 0 => rfl
    | Nat.succ k =>
      simp only [List.map_cons, List.getD_cons_succ]
      exact ih k (by simpa [Nat.succ_lt_succ_iff] using hj)

theorem getD_mem_rat : ∀ (l : List ℚ) (j : Nat), j < l.length → l.getD j 0 ∈ l := by
  intro l
  induction l with
  | nil => intro j hj; cases hj
  | cons a t ih =>
    intro j hj
    match j with
    | 0 => exact List.mem_cons_self a t
    | Nat.succ k =>
      exact List.mem_cons_of_mem a (ih k (by simpa [Nat.succ_lt_succ_iff] using hj))

theorem aggregate_max_spec (vals : List ℚ) (h : vals ≠ []) :
    aggregate_field_values vals AggregationMode.max ∈ vals ∧
    ∀ x ∈ vals, x ≤ aggregate_field_values vals AggregationMode.max := by
  match vals with
  | [] => exact absurd rfl h
  | v :: rest =>
    obtain ⟨h₁, h₂, h₃⟩ := foldl_max_bounds rest v
    refine ⟨?_, ?_⟩
    · unfold aggregate_field_values
      dsimp only
      rcases h₃ with h₃ | h₃
      · rw [h₃]; exact List.mem_cons_self v rest
      · exact List.mem_cons_of_mem v h₃
    · intro x hx
      rw [List.mem_cons] at hx
      rcases hx with hx | hx
      · rw [hx]; exact h₁
      · exact h₂ x hx

theorem aggregate_min_spec (vals : List ℚ) (h : vals ≠ []) :
    aggregate_field_values vals AggregationMode.min ∈ vals ∧
    ∀ x ∈ vals, aggregate_field_values vals AggregationMode.min ≤ x := by
  match vals with
  | [] => exact absurd rfl h
  | v :: rest =>
    obtain ⟨h₁, h₂, h₃⟩ := foldl_min_bounds rest v
    refine ⟨?_, ?_⟩
    · unfold aggregate_field_values
      dsimp only
      rcases h₃ with h₃ | h₃
      · rw [h₃]; exact List.mem_cons_self v rest
      · exact List.mem_cons_of_mem v h₃
    · intro x hx
      rw [List.mem_cons] at hx
      rcases hx with hx | hx
      · rw [hx]; exact h₁
      · exact h₂ x hx

/-- C8 (amended): `MAX` box aggregation returns exactly the whole
`(x, y, width, height)` box of the first member whose `height * width` area is
maximal; `MIN` that of the first member whose area is minimal (never
per-coordinate extrema); `AVERAGE` returns the coordinate-wise arithmetic mean
rounded to the nearest integer by Python `round` (half to even) — not the exact
mean. -/
theorem box_aggregation_modes (detections : List Detection) (h : detections ≠ []) :
    (∃ i, i < detections.length ∧
      get_largest_bounding_box detections =
        ((detections.getD i default).x, (detections.getD i default).y,
         (detections.getD i default).width, (detections.getD i default).height) ∧
      (∀ j, j < detections.length →
        (detections.getD j default).height * (detections.getD j default).width ≤
        (detections.getD i default).height * (detections.getD i default).width) ∧
      (∀ j, j < i →
        (detections.getD j default).height * (detections.getD j default).width <
        (detections.getD i default).height * (detections.getD i default).width)) ∧
    (∃ i, i < detections.length ∧
      get_smallest_bounding_box detections =
        ((detections.getD i default).x, (detections.getD i default).y,
         (detections.getD i default).width, (detections.getD i default).height) ∧
      (∀ j, j < detections.length →
        (detections.getD i default).height * (detections.getD i default).width ≤
        (detections.getD j default).height * (detections.getD j default).width) ∧
      (∀ j, j < i →
        (detections.getD i default).height * (detections.getD i default).width <
        (detections.getD j default).height * (detections.getD j default).width)) ∧
    get_average_bounding_box detections =
      ((pyRound ((detections.map (fun d => d.x)).sum / detections.length) : ℚ),
       (pyRound ((detections.map (fun d => d.y)).sum / detections.length) : ℚ),
       (pyRound ((detections.map (fun d => d.width)).sum / detections.length) : ℚ),
       (pyRound ((detections.map (fun d => d.height)).sum / detections.length) : ℚ)) := by
  have hsz : get_detection_sizes detections ≠ [] := by
    unfold get_detection_sizes
    simpa using h
  have hlen : (get_detection_sizes detections).length = detections.length := by
    unfold get_detection_sizes
    exact List.length_map _ _
  have hget : ∀ j, j < detections.length →
      (get_detection_sizes detections).getD j 0 =
        (detections.getD j default).height * (detections.getD j default).width := by
    intro j hj
    unfold get_detection_sizes
    exact getD_map_rat _ detections j hj
  refine ⟨?_, ?_, ?_⟩
  · obtain ⟨hmem, hmax⟩ := aggregate_max_spec (get_detection_sizes detections) hsz
    obtain ⟨hi, hp, hfirst⟩ := findIdx_spec
      (fun v => decide (v = aggregate_field_values (get_detection_sizes detections)
        AggregationMode.max)) 0 (get_detection_sizes detections)
      ⟨_, hmem, by simp⟩
    rw [hlen] at hi
    refine ⟨(get_detection_sizes detections).findIdx
      (fun v => decide (v = aggregate_field_values (get_detection_sizes detections)
        AggregationMode.max)), hi, ?_, ?_, ?_⟩
    · unfold get_largest_bounding_box
      dsimp only
    · intro j hj
      have hij := hget _ hi
      simp only [decide_eq_true_eq] at hp
      rw [← hij, hp]
      rw [← hget j hj]
      exact hmax _ (getD_mem_rat _ j (by rw [hlen]; exact hj))
    · intro j hj
      have hij := hget _ hi
      simp only [decide_eq_true_eq] at hp
      have hjlt : j < detections.length := lt_trans hj hi
      have hne := hfirst j hj
      simp only [decide_eq_false_iff_not] at hne
      rw [← hget j hjlt] at *
      rw [← hij, hp]
      exact lt_of_le_of_ne (hmax _ (getD_mem_rat _ j (by rw [hlen]; exact hjlt))) hne
  · obtain ⟨hmem, hmin⟩ := aggregate_min_spec (get_detection_sizes detections) hsz
    obtain ⟨hi, hp, hfirst⟩ := findIdx_spec
      (fun v => decide (v = aggregate_field_values (get_detection_sizes detections)
        AggregationMode.min)) 0 (get_detection_sizes detections)
      ⟨_, hmem, by simp⟩
    rw [hlen] at hi
    refine ⟨(get_detection_sizes detections).findIdx
      (fun v => decide (v = aggregate_field_values (get_detection_sizes detections)
        AggregationMode.min)), hi, ?_, ?_, ?_⟩
    · unfold get_smallest_bounding_box
      dsimp only
    · intro j hj
      have hij := hget _ hi
      simp only [decide_eq_true_eq] at hp
      rw [← hij, hp]
      rw [← hget j hj]
      exact hmin _ (getD_mem_rat _ j (by rw [hlen]; exact hj))
    · intro j hj
      have hij := hget _ hi
      simp only [decide_eq_true_eq] at hp
      have hjlt : j < detections.length := lt_trans hj hi
      have hne := hfirst j hj
      simp only [decide_eq_false_iff_not] at hne
      rw [← hget j hjlt] at *
      rw [← hij, hp]
      exact lt_of_le_of_ne (hmin _ (getD_mem_rat _ j (by rw [hlen]; exact hjlt)))
        (fun hcontra => hne hcontra.symm)
  · unfold get_average_bounding_box aggregate_field_values
    simp [List.length_map]

/-- Counterexample for C8: averaging the boxes `(0,0,0,0)` and `(1,1,1,1)` must,
per the claim, give the coordinate-wise arithmetic mean `(1/2,1/2,1/2,1/2)`; the
code's `get_average_bounding_box` applies Python `round` (half to even) to each
mean and returns `(0,0,0,0)`. -/
theorem average_box_rounding_cex :
    get_average_bounding_box [exUnit0, exUnit1] = (0, 0, 0, 0) ∧
    (exUnit0.x + exUnit1.x) / 2 = 1 / 2 ∧
    get_average_bounding_box [exUnit0, exUnit1] ≠
      ((exUnit0.x + exUnit1.x) / 2, (exUnit0.y + exUnit1.y) / 2,
       (exUnit0.width + exUnit1.width) / 2, (exUnit0.height + exUnit1.height) / 2) := by
  have h : get_average_bounding_box [exUnit0, exUnit1] = (0, 0, 0, 0) := by
    norm_num [get_average_bounding_box, aggregate_field_values, pyRound, exUnit0, exUnit1]
  refine ⟨h, by norm_num [exUnit0, exUnit1], ?_⟩
  rw [h]
  intro hcontra
  have := congrArg (fun t => t.1) hcontra
  norm_num [exUnit0, exUnit1] at this

/-- Witness for C8: the box-aggregation characterisation applied to the concrete
pair `[exCat, exCatB]` (areas 100 and 64). -/
theorem box_aggregation_modes_witness :
    ([exCat, exCatB] : List Detection) ≠ [] ∧
    ((∃ i, i < ([exCat, exCatB] : List Detection).length ∧
      get_largest_bounding_box [exCat, exCatB] =
        ((([exCat, exCatB] : List Detection).getD i default).x,
         (([exCat, exCatB] : List Detection).getD i default).y,
         (([exCat, exCatB] : List Detection).getD i default).width,
         (([exCat, exCatB] : List Detection).getD i default).height) ∧
      (∀ j, j < ([exCat, exCatB] : List Detection).length →
        (([exCat, exCatB] : List Detection).getD j default).height *
          (([exCat, exCatB] : List Detection).getD j default).width ≤
        (([exCat, exCatB] : List Detection).getD i default).height *
          (([exCat, exCatB] : List Detection).getD i default).width) ∧
      (∀ j, j < i →
        (([exCat, exCatB] : List Detection).getD j default).height *
          (([exCat, exCatB] : List Detection).getD j default).width <
        (([exCat, exCatB] : List Detection).getD i default).height *
          (([exCat, exCatB] : List Detection).getD i default).width)) ∧
    (∃ i, i < ([exCat, exCatB] : List Detection).length ∧
      get_smallest_bounding_box [exCat, exCatB] =
        ((([exCat, exCatB] : List Detection).getD i default).x,
         (([exCat, exCatB] : List Detection).getD i default).y,
         (([exCat, exCatB] : List Detection).getD i default).width,
         (([exCat, exCatB] : List Detection).getD i default).height) ∧
      (∀ j, j < ([exCat, exCatB] : List Detection).length →
        (([exCat, exCatB] : List Detection).getD i default).height *
          (([exCat, exCatB] : List Detection).getD i default).width ≤
        (([exCat, exCatB] : List Detection).getD j default).height *
          (([exCat, exCatB] : List Detection).getD j default).width) ∧
      (∀ j, j < i →
        (([exCat, exCatB] : List Detection).getD i default).height *
          (([exCat, exCatB] : List Detection).getD i default).width <
        (([exCat, exCatB] : List Detection).getD j default).height *
          (([exCat, exCatB] : List Detection).getD j default).width)) ∧
    get_average_bounding_box [exCat, exCatB] =
      ((pyRound ((([exCat, exCatB] : List Detection).map (fun d => d.x)).sum /
          ([exCat, exCatB] : List Detection).length) : ℚ),
       (pyRound ((([exCat, exCatB] : List Detection).map (fun d => d.y)).sum /
          ([exCat, exCatB] : List Detection).length) : ℚ),
       (pyRound ((([exCat, exCatB] : List Detection).map (fun d => d.width)).sum /
          ([exCat, exCatB] : List Detection).length) : ℚ),
       (pyRound ((([exCat, exCatB] : List Detection).map (fun d => d.height)).sum /
          ([exCat, exCatB] : List Detection).length) : ℚ))) :=
  ⟨by simp, box_aggregation_modes [exCat, exCatB] (by simp)⟩

/-! ## Presence evaluation, C7 -/

/-- C7 (amended): in the class-aware presence evaluation with `required_objects`
a class-to-count mapping, if any class named in the mapping has fewer merged
detections than its required count (including zero of that class), the result is
`(False, {})`; otherwise — provided at least one merged detection exists — the
result is `object_present = True` with `presence_confidence` mapping every class
that has at least one merged detection to the aggregate of its confidences under
the configured mode.  (With zero merged detections the evaluator always returns
`(False, {})`, even when the mapping names no class; see the counterexample.) -/
theorem class_aware_required_objects_check (consensus_detections : List Detection)
    (aggregation_mode : AggregationMode) (m : List (String × ℤ)) :
    ((∃ e ∈ m, ((consensus_detections.filter (fun d => d.cls == e.1)).length : ℤ) < e.2) →
      check_objects_presence_in_consensus_predictions consensus_detections true
        aggregation_mode (RequiredObjects.byClass m) = (false, [])) ∧
    (consensus_detections ≠ [] →
      (∀ e ∈ m, e.2 ≤ ((consensus_detections.filter (fun d => d.cls == e.1)).length : ℤ)) →
      check_objects_presence_in_consensus_predictions consensus_detections true
        aggregation_mode (RequiredObjects.byClass m)
        = (true, ((consensus_detections.map (fun d => d.cls)).dedup).map (fun c =>
            (c, aggregate_field_values
              ((consensus_detections.filter (fun d => d.cls == c)).map
                (fun d => d.confidence)) aggregation_mode)))) ∧
    (∀ c ∈ (consensus_detections.map (fun d => d.cls)).dedup,
      consensus_detections.filter (fun d => d.cls == c) ≠ []) := by
  refine ⟨?_, ?_, ?_⟩
  · intro hfail
    match hc : consensus_detections with
    | [] => rfl
    | d₀ :: rest =>
      have hany : (m.any fun e =>
          decide ((((d₀ :: rest).filter (fun d => d.cls == e.1)).length : ℤ) < e.2))
          = true := by
        rw [List.any_eq_true]
        obtain ⟨e, he, hlt⟩ := hfail
        exact ⟨e, he, by simpa using hlt⟩
      unfold check_objects_presence_in_consensus_predictions
      dsimp only
      rw [if_neg (by simp)]
      rw [if_neg (by simp)]
      rw [if_neg (by simp)]
      rw [if_pos hany]
  · intro hne hok
    match hc : consensus_detections with
    | [] => exact absurd rfl hne
    | d₀ :: rest =>
      have hnot : ¬ ((m.any fun e =>
          decide ((((d₀ :: rest).filter (fun d => d.cls == e.1)).length : ℤ) < e.2))
          = true) := by
        rw [List.any_eq_true]
        rintro ⟨e, he, hlt⟩
        have hge := hok e he
        simp only [decide_eq_true_eq] at hlt
        exact absurd hge (not_le.2 hlt)
      unfold check_objects_presence_in_consensus_predictions
      dsimp only
      rw [if_neg (by simp)]
      rw [if_neg (by simp)]
      rw [if_neg (by simp)]
      rw [if_neg hnot]
  · intro c hcmem
    rw [List.mem_dedup, List.mem_map] at hcmem
    obtain ⟨d, hd, hdc⟩ := hcmem
    intro hnil
    have : d ∈ consensus_detections.filter (fun d => d.cls == c) := by
      rw [List.mem_filter]
      exact ⟨hd, by simp [hdc]⟩
    rw [hnil] at this
    cases this

/-- Counterexample for C7: with zero merged detections, class-aware evaluation,
and the (valid, vacuous) empty mapping as `required_objects`, no class named in
the mapping is under-represented, so the claim requires `object_present = True`
with an empty confidence map; the code's zero-detections guard returns
`(False, {})` instead. -/
theorem empty_mapping_zero_detections_cex :
    check_objects_presence_in_consensus_predictions [] true AggregationMode.max
      (RequiredObjects.byClass []) = (false, []) ∧
    (¬ ∃ e ∈ ([] : List (String × ℤ)),
      ((([] : List Detection).filter (fun d => d.cls == e.1)).length : ℤ) < e.2) := by
  exact ⟨rfl, by simp⟩

/-- Witness for C7: a single `cat` merged detection with mapping `cat -> 1`
passes the per-class check and reports presence with the aggregated confidence,
while mapping `cat -> 2` fails it. -/
theorem class_aware_required_objects_check_witness :
    check_objects_presence_in_consensus_predictions [exCat] true AggregationMode.max
      (RequiredObjects.byClass [("cat", 2)]) = (false, []) ∧
    check_objects_presence_in_consensus_predictions [exCat] true AggregationMode.max
      (RequiredObjects.byClass [("cat", 1)])
      = (true, (([exCat] : List Detection).map (fun d => d.cls)).dedup.map (fun c =>
          (c, aggregate_field_values
            ((([exCat] : List Detection).filter (fun d => d.cls == c)).map
              (fun d => d.confidence)) AggregationMode.max))) := by
  constructor
  · exact (class_aware_required_objects_check [exCat] AggregationMode.max
      [("cat", 2)]).1 ⟨("cat", 2), by simp, by simp [exCat, List.filter_cons]⟩
  · exact (class_aware_required_objects_check [exCat] AggregationMode.max
      [("cat", 1)]).2.1 (by simp)
      (by rintro e he; simp at he; simp [he, exCat, List.filter_cons])

/-! ## Per-source decomposition of the matcher fold (C1 machinery) -/

theorem assocGet_assocSet_self {α : Type} (m : List (Nat × α)) (k : Nat) (v : α) :
    assocGet (assocSet m k v) k = some v := by
  induction m with
  | nil => simp [assocSet, assocGet]
  | cons e rest ih =>
    obtain ⟨k', v'⟩ := e
    by_cases hk : k' = k
    · simp [assocSet, hk, assocGet]
    · simp only [assocSet, hk, if_false]
      rw [show assocGet ((k', v') :: assocSet rest k v) k
          = if k' = k then some v' else assocGet (assocSet rest k v) k from rfl]
      rw [if_neg hk]
      exact ih

theorem assocGet_assocSet_ne {α : Type} (m : List (Nat × α)) (k k' : Nat) (v : α)
    (h : k ≠ k') : assocGet (assocSet m k v) k' = assocGet m k' := by
  induction m with
  | nil => simp [assocSet, assocGet, h]
  | cons e rest ih =>
    obtain ⟨k₀, v₀⟩ := e
    by_cases hk : k₀ = k
    · simp [assocSet, hk, assocGet, h]
    · simp only [assocSet, hk, if_false]
      show (if k₀ = k' then some v₀ else assocGet (assocSet rest k v) k')
        = if k₀ = k' then some v₀ else assocGet rest k'
      by_cases hk' : k₀ = k'
      · simp [hk']
      · simp [hk', ih]

theorem mem_keys_assocSet {α : Type} (m : List (Nat × α)) (k : Nat) (v : α) (s : Nat) :
    s ∈ (assocSet m k v).map (fun e => e.1) → s ∈ m.map (fun e => e.1) ∨ s = k := by
  induction m with
  | nil => simp [assocSet]
  | cons e rest ih =>
    obtain ⟨k₀, v₀⟩ := e
    by_cases hk : k₀ = k
    · simp only [assocSet, hk, if_true]
      intro h
      rw [List.map_cons, List.mem_cons] at h
      rcases h with h | h
      · right; exact h
      · left; rw [List.map_cons, List.mem_cons]; right; exact h
    · simp only [assocSet, hk, if_false]
      intro h
      rw [List.map_cons, List.mem_cons] at h
      rcases h with h | h
      · left; rw [List.map_cons, List.mem_cons]; left; exact h
      · rcases ih h with h' | h'
        · left; rw [List.map_cons, List.mem_cons]; right; exact h'
        · right; exact h'

theorem nodup_keys_assocSet {α : Type} (m : List (Nat × α)) (k : Nat) (v : α)
    (h : (m.map (fun e => e.1)).Nodup) : ((assocSet m k v).map (fun e => e.1)).Nodup := by
  induction m with
  | nil => simp [assocSet]
  | cons e rest ih =>
    obtain ⟨k₀, v₀⟩ := e
    rw [List.map_cons, List.nodup_cons] at h
    by_cases hk : k₀ = k
    · simp only [assocSet, hk, if_true]
      rw [List.map_cons, List.nodup_cons]
      exact ⟨hk ▸ h.1, h.2⟩
    · simp only [assocSet, hk, if_false]
      rw [List.map_cons, List.nodup_cons]
      refine ⟨?_, ih h.2⟩
      intro hmem
      rcases mem_keys_assocSet rest k v k₀ hmem with h' | h'
      · exact h.1 h'
      · exact hk h'

theorem consider_candidate_get_self (detection : Detection) (iou_threshold : ℚ)
    (class_aware : Bool) (C : Finset String) (acc : List (Nat × (Detection × ℚ)))
    (s : Nat) (c : Detection) :
    assocGet (consider_candidate detection iou_threshold class_aware C acc (s, c)) s
      = best_candidate_step detection iou_threshold class_aware C (assocGet acc s) c := by
  unfold consider_candidate best_candidate_step
  dsimp only
  split_ifs with h1 h2 h3
  · rfl
  · rfl
  · rfl
  · match hacc : assocGet acc s with
    | none => exact assocGet_assocSet_self acc s _
    | some previous =>
      dsimp only
      split_ifs with h4
      · exact assocGet_assocSet_self acc s _
      · exact hacc

theorem consider_candidate_get_ne (detection : Detection) (iou_threshold : ℚ)
    (class_aware : Bool) (C : Finset String) (acc : List (Nat × (Detection × ℚ)))
    (s' s : Nat) (c : Detection) (hne : s' ≠ s) :
    assocGet (consider_candidate detection iou_threshold class_aware C acc (s', c)) s
      = assocGet acc s := by
  unfold consider_candidate
  dsimp only
  split_ifs with h1 h2 h3
  · rfl
  · rfl
  · rfl
  · match hacc : assocGet acc s' with
    | none => exact assocGet_assocSet_ne acc s' s _ hne
    | some previous =>
      dsimp only
      split_ifs with h4
      · exact assocGet_assocSet_ne acc s' s _ hne
      · rfl

theorem fold_consider_decompose (detection : Detection) (iou_threshold : ℚ)
    (class_aware : Bool) (C : Finset String) :
    ∀ (l : List (Nat × Detection)) (acc : List (Nat × (Detection × ℚ))) (s : Nat),
      assocGet (l.foldl (consider_candidate detection iou_threshold class_aware C) acc) s
        = ((l.filter (fun p => p.1 == s)).map (fun p => p.2)).foldl
            (best_candidate_step detection iou_threshold class_aware C) (assocGet acc s) := by
  intro l
  induction l with
  | nil => intro acc s; rfl
  | cons e rest ih =>
    intro acc s
    obtain ⟨s', c⟩ := e
    rw [List.foldl_cons]
    rw [ih (consider_candidate detection iou_threshold class_aware C acc (s', c)) s]
    by_cases hs : s' = s
    · subst hs
      rw [consider_candidate_get_self]
      rw [List.filter_cons_of_pos (by simp)]
      rw [List.map_cons, List.foldl_cons]
    · rw [consider_candidate_get_ne _ _ _ _ _ _ _ _ hs]
      rw [List.filter_cons_of_neg (by simp [hs])]

theorem enumerate_from_key_ge (excluded_source : Option Nat) :
    ∀ (predictions : List (List Detection)) (start : Nat) (p : Nat × Detection),
      p ∈ enumerate_from start predictions excluded_source → start ≤ p.1 := by
  intro predictions
  induction predictions with
  | nil => intro start p hp; cases hp
  | cons ds rest ih =>
    intro start p hp
    unfold enumerate_from at hp
    rw [List.mem_append] at hp
    rcases hp with hp | hp
    · split_ifs at hp with h
      · cases hp
      · rw [List.mem_map] at hp
        obtain ⟨d, _, hd⟩ := hp
        rw [← hd]
    · exact le_trans (Nat.le_succ start) (ih (start + 1) p hp)

theorem enumerate_from_filter_key (excluded_source : Option Nat) (s : Nat) :
    ∀ (predictions : List (List Detection)) (start : Nat), start ≤ s →
      excluded_source ≠ some s →
      ((enumerate_from start predictions excluded_source).filter
        (fun p => p.1 == s)).map (fun p => p.2)
        = predictions.getD (s - start) [] := by
  intro predictions
  induction predictions with
  | nil => intro start _ _; simp [enumerate_from, List.getD]
  | cons ds rest ih =>
    intro start hle hex
    unfold enumerate_from
    rw [List.filter_append, List.map_append]
    have htail_ne : ∀ hstart : start ≠ s,
        ((enumerate_from (start + 1) rest excluded_source).filter
          (fun p => p.1 == s)).map (fun p => p.2) = rest.getD (s - (start + 1)) [] := by
      intro hstart
      exact ih (start + 1) (by omega) hex
    by_cases hs : start = s
    · subst hs
      have h₁ : ((if excluded_source = some start then []
          else ds.map (fun d => (start, d))).filter (fun p => p.1 == start)).map
            (fun p => p.2) = ds := by
        rw [if_neg hex]
        have hall : ∀ p ∈ ds.map (fun d => (start, d)), (p.1 == start) = true := by
          intro p hp
          rw [List.mem_map] at hp
          obtain ⟨d, _, hd⟩ := hp
          rw [← hd]
          simp
        rw [List.filter_eq_self.2 hall, List.map_map]
        simp
      have h₂ : ((enumerate_from (start + 1) rest excluded_source).filter
          (fun p => p.1 == start)).map (fun p => p.2) = [] := by
        have hnone : ∀ p ∈ enumerate_from (start + 1) rest excluded_source,
            ¬ ((p.1 == start) = true) := by
          intro p hp
          have := enumerate_from_key_ge excluded_source rest (start + 1) p hp
          simp only [beq_iff_eq]
          omega
        rw [List.filter_eq_nil_iff.2 hnone, List.map_nil]
      rw [h₁, h₂, List.append_nil]
      simp
    · have hlt : start < s := lt_of_le_of_ne hle hs
      have h₁ : ((if excluded_source = some start then []
          else ds.map (fun d => (start, d))).filter (fun p => p.1 == s)).map
            (fun p => p.2) = [] := by
        split_ifs with h
        · rfl
        · have hnone : ∀ p ∈ ds.map (fun d => (start, d)), ¬ ((p.1 == s) = true) := by
            intro p hp
            rw [List.mem_map] at hp
            obtain ⟨d, _, hd⟩ := hp
            rw [← hd]
            simp only [beq_iff_eq]
            omega
          rw [List.filter_eq_nil_iff.2 hnone, List.map_nil]
      rw [h₁, List.nil_append]
      rw [htail_ne hs]
      have harith : s - start = (s - (start + 1)) + 1 := by omega
      rw [harith]
      rfl

theorem enumerate_from_filter_excluded (s : Nat) :
    ∀ (predictions : List (List Detection)) (start : Nat),
      ((enumerate_from start predictions (some s)).filter
        (fun p => p.1 == s)).map (fun p => p.2) = [] := by
  intro predictions
  induction predictions with
  | nil => intro start; rfl
  | cons ds rest ih =>
    intro start
    unfold enumerate_from
    rw [List.filter_append, List.map_append, ih (start + 1), List.append_nil]
    split_ifs with h
    · rfl
    · have hnone : ∀ p ∈ ds.map (fun d => (start, d)), ¬ ((p.1 == s) = true) := by
        intro p hp
        rw [List.mem_map] at hp
        obtain ⟨d, _, hd⟩ := hp
        rw [← hd]
        simp only [beq_iff_eq]
        intro hps
        exact h (by rw [hps])
      rw [List.filter_eq_nil_iff.2 hnone, List.map_nil]

/-- The per-source content of the matcher's dict: looking up source `s` in the
result of `get_detections_from_different_sources_with_max_overlap` gives the
left-to-right best-candidate fold over that source's own detection list (empty
for the seed's source). -/
theorem max_overlap_get_eq_best (detection : Detection) (source : Nat)
    (predictions : List (List Detection)) (iou_threshold : ℚ) (class_aware : Bool)
    (C : Finset String) (s : Nat) :
    assocGet (get_detections_from_different_sources_with_max_overlap detection source
      predictions iou_threshold class_aware C) s
      = if s = source then none
        else best_candidate detection iou_threshold class_aware C
          (predictions.getD s []) := by
  unfold get_detections_from_different_sources_with_max_overlap enumerate_detections
  rw [fold_consider_decompose]
  by_cases hs : s = source
  · subst hs
    rw [enumerate_from_filter_excluded, if_pos rfl]
    rfl
  · rw [if_neg hs]
    rw [enumerate_from_filter_key (some source) s predictions 0 (Nat.zero_le s)
      (by intro h; exact hs (Option.some.inj h).symm)]
    rfl

theorem best_candidate_step_none_eq (detection : Detection) (iou_threshold : ℚ)
    (class_aware : Bool) (C : Finset String) (c : Detection) :
    best_candidate_step detection iou_threshold class_aware C none c
      = if qualifies detection iou_threshold class_aware C c
        then some (c, calculate_iou detection c) else none := by
  by_cases hq : qualifies detection iou_threshold class_aware C c
  · rw [if_pos hq]
    obtain ⟨h1, h2, h3⟩ := hq
    have hc2 : ¬ (class_aware = true ∧ detection.cls ≠ c.cls) := by
      rintro ⟨hca, hne⟩; exact hne (h2 hca)
    unfold best_candidate_step
    rw [if_neg h1, if_neg hc2, if_neg (not_le.2 h3)]
  · rw [if_neg hq]
    unfold best_candidate_step
    by_cases h1 : c.detection_id ∈ C
    · rw [if_pos h1]
    · rw [if_neg h1]
      by_cases h2 : class_aware = true ∧ detection.cls ≠ c.cls
      · rw [if_pos h2]
      · rw [if_neg h2]
        by_cases h3 : calculate_iou detection c ≤ iou_threshold
        · rw [if_pos h3]
        · exfalso
          refine hq ⟨h1, ?_, not_le.1 h3⟩
          intro hca
          by_contra hne
          exact h2 ⟨hca, hne⟩

theorem option_merge_none_left (b : Option (Detection × ℚ)) :
    option_merge none b = b := by
  match b with
  | none => rfl
  | some p => rfl

theorem option_merge_none_right (a : Option (Detection × ℚ)) :
    option_merge a none = a := by
  match a with
  | none => rfl
  | some p => rfl

theorem best_candidate_step_eq_merge (detection : Detection) (iou_threshold : ℚ)
    (class_aware : Bool) (C : Finset String) (acc : Option (Detection × ℚ))
    (c : Detection) :
    best_candidate_step detection iou_threshold class_aware C acc c
      = option_merge acc (best_candidate_step detection iou_threshold class_aware C
          none c) := by
  rw [best_candidate_step_none_eq]
  by_cases hq : qualifies detection iou_threshold class_aware C c
  · rw [if_pos hq]
    obtain ⟨h1, h2, h3⟩ := hq
    have hc2 : ¬ (class_aware = true ∧ detection.cls ≠ c.cls) := by
      rintro ⟨hca, hne⟩; exact hne (h2 hca)
    unfold best_candidate_step
    rw [if_neg h1, if_neg hc2, if_neg (not_le.2 h3)]
    match acc with
    | none => rfl
    | some p => rfl
  · rw [if_neg hq, option_merge_none_right]
    unfold best_candidate_step
    by_cases h1 : c.detection_id ∈ C
    · rw [if_pos h1]
    · rw [if_neg h1]
      by_cases h2 : class_aware = true ∧ detection.cls ≠ c.cls
      · rw [if_pos h2]
      · rw [if_neg h2]
        by_cases h3 : calculate_iou detection c ≤ iou_threshold
        · rw [if_pos h3]
        · exfalso
          refine hq ⟨h1, ?_, not_le.1 h3⟩
          intro hca
          by_contra hne
          exact h2 ⟨hca, hne⟩

theorem option_merge_assoc (a b c : Option (Detection × ℚ)) :
    option_merge (option_merge a b) c = option_merge a (option_merge b c) := by
  match a, b, c with
  | none, b, c => simp only [option_merge_none_left]
  | some p, none, c => simp only [option_merge_none_right, option_merge_none_left]
  | some p, some q, none => simp only [option_merge_none_right]
  | some p, some q, some r =>
    show option_merge (if p.2 < q.2 then some q else some p) (some r)
        = option_merge (some p) (if q.2 < r.2 then some r else some q)
    by_cases hpq : p.2 < q.2
    · rw [if_pos hpq]
      by_cases hqr : q.2 < r.2
      · rw [if_pos hqr]
        show (if q.2 < r.2 then some r else some q) = if p.2 < r.2 then some r else some p
        rw [if_pos hqr, if_pos (lt_trans hpq hqr)]
      · rw [if_neg hqr]
        show (if q.2 < r.2 then some r else some q) = if p.2 < q.2 then some q else some p
        rw [if_neg hqr, if_pos hpq]
    · rw [if_neg hpq]
      by_cases hqr : q.2 < r.2
      · rw [if_pos hqr]
      · rw [if_neg hqr]
        show (if p.2 < r.2 then some r else some p) = if p.2 < q.2 then some q else some p
        rw [if_neg hpq, if_neg (by rw [not_lt] at *; exact le_trans hqr hpq)]

theorem foldl_best_eq_merge (detection : Detection) (iou_threshold : ℚ)
    (class_aware : Bool) (C : Finset String) :
    ∀ (cs : List Detection) (acc : Option (Detection × ℚ)),
      cs.foldl (best_candidate_step detection iou_threshold class_aware C) acc
        = option_merge acc (best_candidate detection iou_threshold class_aware C cs) := by
  intro cs
  induction cs with
  | nil =>
    intro acc
    rw [List.foldl_nil]
    exact (option_merge_none_right acc).symm
  | cons c rest ih =>
    intro acc
    rw [List.foldl_cons, ih]
    rw [best_candidate_step_eq_merge detection iou_threshold class_aware C acc c]
    rw [option_merge_assoc]
    congr 1
    have hbc : best_candidate detection iou_threshold class_aware C (c :: rest)
        = rest.foldl (best_candidate_step detection iou_threshold class_aware C)
            (best_candidate_step detection iou_threshold class_aware C none c) := rfl
    rw [hbc, ih]

theorem best_candidate_cons (detection : Detection) (iou_threshold : ℚ)
    (class_aware : Bool) (C : Finset String) (c : Detection) (rest : List Detection) :
    best_candidate detection iou_threshold class_aware C (c :: rest)
      = option_merge (best_candidate_step detection iou_threshold class_aware C none c)
          (best_candidate detection iou_threshold class_aware C rest) := by
  have hbc : best_candidate detection iou_threshold class_aware C (c :: rest)
      = rest.foldl (best_candidate_step detection iou_threshold class_aware C)
          (best_candidate_step detection iou_threshold class_aware C none c) := rfl
  rw [hbc]
  exact foldl_best_eq_merge detection iou_threshold class_aware C rest _

theorem best_candidate_spec (detection : Detection) (iou_threshold : ℚ)
    (class_aware : Bool) (C : Finset String) :
    ∀ (cs : List Detection),
      (∀ d v, best_candidate detection iou_threshold class_aware C cs = some (d, v) →
        ∃ i, i < cs.length ∧ cs.getD i default = d ∧
          qualifies detection iou_threshold class_aware C d ∧
          v = calculate_iou detection d ∧
          (∀ j, j < cs.length → qualifies detection iou_threshold class_aware C
            (cs.getD j default) → calculate_iou detection (cs.getD j default) ≤ v) ∧
          (∀ j, j < i → qualifies detection iou_threshold class_aware C
            (cs.getD j default) → calculate_iou detection (cs.getD j default) < v)) ∧
      (best_candidate detection iou_threshold class_aware C cs = none →
        ∀ j, j < cs.length → ¬ qualifies detection iou_threshold class_aware C
          (cs.getD j default)) := by
  intro cs
  induction cs with
  | nil =>
    constructor
    · intro d v h
      simp [best_candidate] at h
    · intro _ j hj
      cases hj
  | cons c rest ih =>
    have hcons := best_candidate_cons detection iou_threshold class_aware C c rest
    rw [best_candidate_step_none_eq] at hcons
    by_cases hQ : qualifies detection iou_threshold class_aware C c
    · rw [if_pos hQ] at hcons
      constructor
      · intro d v h
        match hB : best_candidate detection iou_threshold class_aware C rest with
        | none =>
          rw [hB, option_merge_none_right] at hcons
          rw [hcons] at h
          have hd : c = d := congrArg Prod.fst (Option.some.inj h)
          have hv : calculate_iou detection c = v :=
            congrArg Prod.snd (Option.some.inj h)
          refine ⟨0, by simp, by simpa using hd, hd ▸ hQ, by rw [← hv, ← hd], ?_, ?_⟩
          · intro j hj hq
            match j with
            | 0 =>
              rw [List.getD_cons_zero] at hq ⊢
              rw [← hv]
            | Nat.succ k =>
              exfalso
              rw [List.getD_cons_succ] at hq
              exact ih.2 hB k (by simpa [Nat.succ_lt_succ_iff] using hj) hq
          · intro j hj
            cases hj
        | some p =>
          obtain ⟨d', v'⟩ := p
          rw [hB] at hcons
          by_cases hlt : calculate_iou detection c < v'
          · have hres : best_candidate detection iou_threshold class_aware C (c :: rest)
                = some (d', v') := by
              rw [hcons]
              show (if (c, calculate_iou detection c).2 < (d', v').2
                then some (d', v') else some (c, calculate_iou detection c)) = _
              rw [if_pos hlt]
            rw [hres] at h
            have hd : d' = d := congrArg Prod.fst (Option.some.inj h)
            have hv : v' = v := congrArg Prod.snd (Option.some.inj h)
            obtain ⟨i, hi, hgi, hqi, hvi, hmax, hfirst⟩ := ih.1 d' v' hB
            refine ⟨i + 1, by simpa [Nat.succ_lt_succ_iff] using hi, ?_, hd ▸ hqi,
              ?_, ?_, ?_⟩
            · rw [List.getD_cons_succ, hgi, hd]
            · rw [← hv, ← hd, hvi]
            · intro j hj hq
              match j with
              | 0 =>
                rw [List.getD_cons_zero] at hq ⊢
                rw [← hv]
                exact le_of_lt hlt
              | Nat.succ k =>
                rw [List.getD_cons_succ] at hq ⊢
                rw [← hv]
                exact hmax k (by simpa [Nat.succ_lt_succ_iff] using hj) hq
            · intro j hj hq
              match j with
              | 0 =>
                rw [List.getD_cons_zero] at hq ⊢
                rw [← hv]
                exact hlt
              | Nat.succ k =>
                rw [List.getD_cons_succ] at hq ⊢
                rw [← hv]
                exact hfirst k (by omega) hq
          · have hres : best_candidate detection iou_threshold class_aware C (c :: rest)
                = some (c, calculate_iou detection c) := by
              rw [hcons]
              show (if (c, calculate_iou detection c).2 < (d', v').2
                then some (d', v') else some (c, calculate_iou detection c)) = _
              rw [if_neg hlt]
            rw [hres] at h
            have hd : c = d := congrArg Prod.fst (Option.some.inj h)
            have hv : calculate_iou detection c = v :=
              congrArg Prod.snd (Option.some.inj h)
            obtain ⟨i, hi, hgi, hqi, hvi, hmax, hfirst⟩ := ih.1 d' v' hB
            refine ⟨0, by simp, by simpa using hd, hd ▸ hQ, by rw [← hv, ← hd], ?_, ?_⟩
            · intro j hj hq
              match j with
              | 0 =>
                rw [List.getD_cons_zero] at hq ⊢
                rw [← hv]
              | Nat.succ k =>
                rw [List.getD_cons_succ] at hq ⊢
                have h₁ := hmax k (by simpa [Nat.succ_lt_succ_iff] using hj) hq
                rw [← hv]
                exact le_trans h₁ (not_lt.1 hlt)
            · intro j hj
              cases hj
      · intro h
        exfalso
        match hB : best_candidate detection iou_threshold class_aware C rest with
        | none =>
          rw [hB, option_merge_none_right] at hcons
          rw [hcons] at h
          cases h
        | some p =>
          rw [hB] at hcons
          rw [hcons] at h
          obtain ⟨d', v'⟩ := p
          revert h
          show (if (c, calculate_iou detection c).2 < (d', v').2
            then some (d', v') else some (c, calculate_iou detection c)) = none → False
          split_ifs <;> intro h <;> cases h
    · rw [if_neg hQ, option_merge_none_left] at hcons
      constructor
      · intro d v h
        rw [hcons] at h
        obtain ⟨i, hi, hgi, hqi, hvi, hmax, hfirst⟩ := ih.1 d v h
        refine ⟨i + 1, by simpa [Nat.succ_lt_succ_iff] using hi, ?_, hqi, hvi, ?_, ?_⟩
        · rw [List.getD_cons_succ, hgi]
        · intro j hj hq
          match j with
          | 0 =>
            rw [List.getD_cons_zero] at hq
            exact absurd hq hQ
          | Nat.succ k =>
            rw [List.getD_cons_succ] at hq ⊢
            exact hmax k (by simpa [Nat.succ_lt_succ_iff] using hj) hq
        · intro j hj hq
          match j with
          | 0 =>
            rw [List.getD_cons_zero] at hq
            exact absurd hq hQ
          | Nat.succ k =>
            rw [List.getD_cons_succ] at hq ⊢
            exact hfirst k (by omega) hq
      · intro h j hj
        rw [hcons] at h
        match j with
        | 0 =>
          rw [List.getD_cons_zero]
          exact hQ
        | Nat.succ k =>
          rw [List.getD_cons_succ]
          exact ih.2 h k (by simpa [Nat.succ_lt_succ_iff] using hj)

theorem getD_mem {α : Type} (dflt : α) :
    ∀ (l : List α) (j : Nat), j < l.length → l.getD j dflt ∈ l := by
  intro l
  induction l with
  | nil => intro j hj; cases hj
  | cons a t ih =>
    intro j hj
    match j with
    | 0 => exact List.mem_cons_self a t
    | Nat.succ k =>
      exact List.mem_cons_of_mem a (ih k (by simpa [Nat.succ_lt_succ_iff] using hj))

theorem consider_candidate_cases (detection : Detection) (iou_threshold : ℚ)
    (class_aware : Bool) (C : Finset String) (acc : List (Nat × (Detection × ℚ)))
    (entry : Nat × Detection) :
    consider_candidate detection iou_threshold class_aware C acc entry = acc ∨
    ∃ v, consider_candidate detection iou_threshold class_aware C acc entry
      = assocSet acc entry.1 v := by
  obtain ⟨s, c⟩ := entry
  unfold consider_candidate
  dsimp only
  split_ifs with h1 h2 h3
  · left; rfl
  · left; rfl
  · left; rfl
  · match hacc : assocGet acc s with
    | none => right; exact ⟨_, rfl⟩
    | some previous =>
      dsimp only
      split_ifs with h4
      · right; exact ⟨_, rfl⟩
      · left; rfl

theorem fold_consider_keys (detection : Detection) (iou_threshold : ℚ)
    (class_aware : Bool) (C : Finset String) :
    ∀ (l : List (Nat × Detection)) (acc : List (Nat × (Detection × ℚ))),
      (acc.map (fun e => e.1)).Nodup →
      ((l.foldl (consider_candidate detection iou_threshold class_aware C) acc).map
        (fun e => e.1)).Nodup ∧
      ∀ k ∈ (l.foldl (consider_candidate detection iou_threshold class_aware C) acc).map
        (fun e => e.1), k ∈ acc.map (fun e => e.1) ∨ k ∈ l.map (fun p => p.1) := by
  intro l
  induction l with
  | nil =>
    intro acc hacc
    exact ⟨hacc, fun k hk => Or.inl hk⟩
  | cons e rest ih =>
    intro acc hacc
    rw [List.foldl_cons]
    have hstep := consider_candidate_cases detection iou_threshold class_aware C acc e
    have hnodup' : ((consider_candidate detection iou_threshold class_aware C acc e).map
        (fun e => e.1)).Nodup := by
      rcases hstep with h | ⟨v, h⟩
      · rw [h]; exact hacc
      · rw [h]; exact nodup_keys_assocSet acc e.1 v hacc
    obtain ⟨hn, hsub⟩ := ih _ hnodup'
    refine ⟨hn, ?_⟩
    intro k hk
    rcases hsub k hk with hk' | hk'
    · rcases hstep with h | ⟨v, h⟩
      · rw [h] at hk'; exact Or.inl hk'
      · rw [h] at hk'
        rcases mem_keys_assocSet acc e.1 v k hk' with h' | h'
        · exact Or.inl h'
        · right; rw [List.map_cons, h']; exact List.mem_cons_self e.1 _
    · right; rw [List.map_cons]; exact List.mem_cons_of_mem e.1 hk'

theorem enumerate_from_excluded_ne (source : Nat) :
    ∀ (predictions : List (List Detection)) (start : Nat) (p : Nat × Detection),
      p ∈ enumerate_from start predictions (some source) → p.1 ≠ source := by
  intro predictions
  induction predictions with
  | nil => intro start p hp; cases hp
  | cons ds rest ih =>
    intro start p hp
    unfold enumerate_from at hp
    rw [List.mem_append] at hp
    rcases hp with hp | hp
    · split_ifs at hp with h
      · cases hp
      · rw [List.mem_map] at hp
        obtain ⟨d, _, hd⟩ := hp
        rw [← hd]
        intro hcontra
        exact h (congrArg some hcontra.symm)
    · exact ih (start + 1) p hp

theorem assocGet_eq_of_mem {α : Type} :
    ∀ (m : List (Nat × α)), ((m.map (fun e => e.1)).Nodup) →
      ∀ e ∈ m, assocGet m e.1 = some e.2 := by
  intro m
  induction m with
  | nil => intro _ e he; cases he
  | cons f rest ih =>
    intro hnodup e he
    rw [List.map_cons, List.nodup_cons] at hnodup
    rw [List.mem_cons] at he
    rcases he with he | he
    · rw [he]
      show (if f.1 = f.1 then some f.2 else assocGet rest f.1) = some f.2
      rw [if_pos rfl]
    · show (if f.1 = e.1 then some f.2 else assocGet rest e.1) = some e.2
      have hne : f.1 ≠ e.1 := by
        intro hcontra
        exact hnodup.1 (hcontra ▸ List.mem_map_of_mem (fun e => e.1) he)
      rw [if_neg hne]
      exact ih hnodup.2 e he

/-- Keys of the matcher's dict: pairwise distinct and never the seed's source. -/
theorem max_overlap_keys (detection : Detection) (source : Nat)
    (predictions : List (List Detection)) (iou_threshold : ℚ) (class_aware : Bool)
    (C : Finset String) :
    ((get_detections_from_different_sources_with_max_overlap detection source predictions
      iou_threshold class_aware C).map (fun e => e.1)).Nodup ∧
    ∀ e ∈ get_detections_from_different_sources_with_max_overlap detection source
      predictions iou_threshold class_aware C, e.1 ≠ source := by
  unfold get_detections_from_different_sources_with_max_overlap enumerate_detections
  obtain ⟨hn, hsub⟩ := fold_consider_keys detection iou_threshold class_aware C
    (enumerate_from 0 predictions (some source)) [] (by simp)
  refine ⟨hn, ?_⟩
  intro e he
  have hk := hsub e.1 (List.mem_map_of_mem (fun e => e.1) he)
  rcases hk with hk | hk
  · simp at hk
  · rw [List.mem_map] at hk
    obtain ⟨p, hp, hpe⟩ := hk
    have := enumerate_from_excluded_ne source predictions 0 p hp
    rw [hpe] at this
    exact this

/-- Every entry of the matcher's dict is a qualifying detection of its own (non
seed) source: unconsumed, class-compatible, above the IoU threshold, and a member
of that source's post-filter detection list. -/
theorem max_overlap_entry_spec (detection : Detection) (source : Nat)
    (predictions : List (List Detection)) (iou_threshold : ℚ) (class_aware : Bool)
    (C : Finset String) :
    ∀ e ∈ get_detections_from_different_sources_with_max_overlap detection source
      predictions iou_threshold class_aware C,
      e.1 ≠ source ∧ e.2.1 ∈ predictions.getD e.1 [] ∧
      e.2.1.detection_id ∉ C := by
  intro e he
  obtain ⟨hnodup, hne⟩ := max_overlap_keys detection source predictions iou_threshold
    class_aware C
  have hns := hne e he
  have hget := assocGet_eq_of_mem _ hnodup e he
  obtain ⟨s0, d', v'⟩ := e
  rw [max_overlap_get_eq_best] at hget
  rw [if_neg hns] at hget
  obtain ⟨i, hi, hgi, hq, _, _, _⟩ :=
    (best_candidate_spec detection iou_threshold class_aware C
      (predictions.getD s0 [])).1 d' v' hget
  refine ⟨hns, ?_, hq.1⟩
  rw [← hgi]
  exact getD_mem default _ i hi

/-- C1: for every seed detection and every other source, the matcher keeps at
most one candidate from that source — the dict entry for source `s`, when
present, is a detection of `s`'s own list that is unconsumed, shares the seed's
class when class-aware, has IoU with the seed strictly above `iou_threshold`
(never at it), attains the maximal IoU among all such qualifying candidates of
`s`, and is the first (lowest detection index) to attain it: every earlier
qualifying candidate has strictly smaller IoU. -/
theorem max_overlap_keeps_best_candidate_per_source (detection : Detection)
    (source : Nat) (predictions : List (List Detection)) (iou_threshold : ℚ)
    (class_aware : Bool) (detections_already_considered : Finset String)
    (s : Nat) (d : Detection) (v : ℚ)
    (h : assocGet (get_detections_from_different_sources_with_max_overlap detection
      source predictions iou_threshold class_aware detections_already_considered) s
      = some (d, v)) :
    s ≠ source ∧
    ∃ i, i < (predictions.getD s []).length ∧
      (predictions.getD s []).getD i default = d ∧
      d.detection_id ∉ detections_already_considered ∧
      (class_aware = true → detection.cls = d.cls) ∧
      iou_threshold < calculate_iou detection d ∧
      v = calculate_iou detection d ∧
      (∀ j, j < (predictions.getD s []).length →
        qualifies detection iou_threshold class_aware detections_already_considered
          ((predictions.getD s []).getD j default) →
        calculate_iou detection ((predictions.getD s []).getD j default) ≤ v) ∧
      (∀ j, j < i →
        qualifies detection iou_threshold class_aware detections_already_considered
          ((predictions.getD s []).getD j default) →
        calculate_iou detection ((predictions.getD s []).getD j default) < v) := by
  rw [max_overlap_get_eq_best] at h
  by_cases hs : s = source
  · rw [if_pos hs] at h
    cases h
  · rw [if_neg hs] at h
    obtain ⟨i, hi, hgi, hq, hv, hmax, hfirst⟩ :=
      (best_candidate_spec detection iou_threshold class_aware
        detections_already_considered (predictions.getD s [])).1 d v h
    exact ⟨hs, i, hi, hgi, hq.1, hq.2.1, hq.2.2, hv, hmax, hfirst⟩

/-- Witness for C1: source 1's entry for the seed `exCat` is `exCatB` with IoU
16/25, and the best-candidate properties hold at that concrete input. -/
theorem max_overlap_keeps_best_candidate_per_source_witness :
    assocGet (get_detections_from_different_sources_with_max_overlap exCat 0
      [[exCat], [exCatB]] (3 / 10) true ∅) 1 = some (exCatB, 16 / 25) ∧
    (1 ≠ 0 ∧
    ∃ i, i < (([[exCat], [exCatB]] : List (List Detection)).getD 1 []).length ∧
      (([[exCat], [exCatB]] : List (List Detection)).getD 1 []).getD i default = exCatB ∧
      exCatB.detection_id ∉ (∅ : Finset String) ∧
      (true = true → exCat.cls = exCatB.cls) ∧
      (3 / 10 : ℚ) < calculate_iou exCat exCatB ∧
      (16 / 25 : ℚ) = calculate_iou exCat exCatB ∧
      (∀ j, j < (([[exCat], [exCatB]] : List (List Detection)).getD 1 []).length →
        qualifies exCat (3 / 10) true ∅
          ((([[exCat], [exCatB]] : List (List Detection)).getD 1 []).getD j default) →
        calculate_iou exCat
          ((([[exCat], [exCatB]] : List (List Detection)).getD 1 []).getD j default)
          ≤ (16 / 25 : ℚ)) ∧
      (∀ j, j < i →
        qualifies exCat (3 / 10) true ∅
          ((([[exCat], [exCatB]] : List (List Detection)).getD 1 []).getD j default) →
        calculate_iou exCat
          ((([[exCat], [exCatB]] : List (List Detection)).getD 1 []).getD j default)
          < (16 / 25 : ℚ))) := by
  have hget : assocGet (get_detections_from_different_sources_with_max_overlap exCat 0
      [[exCat], [exCatB]] (3 / 10) true ∅) 1 = some (exCatB, 16 / 25) := by
    have hM : get_detections_from_different_sources_with_max_overlap exCat 0
        [[exCat], [exCatB]] (3 / 10) true ∅ = [(1, exCatB, 16 / 25)] := by
      norm_num [get_detections_from_different_sources_with_max_overlap,
        enumerate_detections, enumerate_from, consider_candidate, assocGet, assocSet,
        calculate_iou, detection_to_xyxy, exCat, exCatB]
    rw [hM]
    rfl
  exact ⟨hget, max_overlap_keeps_best_candidate_per_source exCat 0 [[exCat], [exCatB]]
    (3 / 10) true ∅ 1 exCatB (16 / 25) hget⟩

/-! ## C2: required-votes check -/

/-- C2: the candidate group for a seed is vote-accepted exactly when the number
of matched other sources is at least `required_votes - 1` (fewer ⇒ the call
returns no output and an unchanged consumption set); with `required_votes = 1`
the vote check can never fail, so every unconsumed seed whose merged confidence
passes the threshold produces output even as a singleton group; and every
produced merged detection comes from a group with at least `required_votes`
distinct contributing sources (the seed's source plus pairwise-distinct matched
sources all different from it). -/
theorem vote_check_accepts_iff_enough_sources (detection : Detection) (source_id : Nat)
    (predictions : List (List Detection)) (iou_threshold : ℚ) (class_aware : Bool)
    (required_votes : Nat) (confidence : ℚ) (dmca dmcoa : AggregationMode)
    (C : Finset String) :
    ((get_detections_from_different_sources_with_max_overlap detection source_id
        predictions iou_threshold class_aware C).length < required_votes - 1 →
      get_consensus_for_single_detection detection source_id predictions iou_threshold
        class_aware required_votes confidence dmca dmcoa C = ([], C)) ∧
    (required_votes = 1 →
      ¬ ((get_detections_from_different_sources_with_max_overlap detection source_id
        predictions iou_threshold class_aware C).length < required_votes - 1)) ∧
    (required_votes = 1 → detection.detection_id ∉ C →
      ¬ ((merge_detections (detection ::
          (get_detections_from_different_sources_with_max_overlap detection source_id
            predictions iou_threshold class_aware C).map (fun e => e.2.1))
          dmca dmcoa).confidence < confidence) →
      (get_consensus_for_single_detection detection source_id predictions iou_threshold
        class_aware required_votes confidence dmca dmcoa C).1 ≠ []) ∧
    (∀ m ∈ (get_consensus_for_single_detection detection source_id predictions
        iou_threshold class_aware required_votes confidence dmca dmcoa C).1,
      required_votes ≤ 1 + (get_detections_from_different_sources_with_max_overlap
        detection source_id predictions iou_threshold class_aware C).length ∧
      ((get_detections_from_different_sources_with_max_overlap detection source_id
        predictions iou_threshold class_aware C).map (fun e => e.1)).Nodup ∧
      (∀ e ∈ get_detections_from_different_sources_with_max_overlap detection source_id
        predictions iou_threshold class_aware C, e.1 ≠ source_id)) := by
  refine ⟨?_, ?_, ?_, ?_⟩
  · intro hvotes
    rcases get_consensus_cases detection source_id predictions iou_threshold class_aware
      required_votes confidence dmca dmcoa C with h | ⟨_, hv, _, _⟩
    · exact h
    · exact absurd hvotes hv
  · intro h1
    rw [h1]
    omega
  · intro h1 hseed hconf
    unfold get_consensus_for_single_detection
    dsimp only
    rw [if_neg hseed]
    rw [if_neg (by rw [h1]; omega)]
    rw [if_neg hconf]
    simp
  · intro m hm
    rcases get_consensus_cases detection source_id predictions iou_threshold class_aware
      required_votes confidence dmca dmcoa C with h | ⟨_, hv, _, hres⟩
    · rw [h] at hm
      cases hm
    · refine ⟨by omega, (max_overlap_keys detection source_id predictions iou_threshold
        class_aware C).1, (max_overlap_keys detection source_id predictions iou_threshold
        class_aware C).2⟩

/-- Witness for C2: with three required votes the single matched source is not
enough and the seed produces nothing; with one required vote the same seed
produces output. -/
theorem vote_check_accepts_iff_enough_sources_witness :
    get_consensus_for_single_detection exCat 0 [[exCat], [exCatB]] (3 / 10) true 3 0
      AggregationMode.average AggregationMode.average ∅ = ([], ∅) ∧
    (get_consensus_for_single_detection exCat 0 [[exCat], [exCatB]] (3 / 10) true 1 0
      AggregationMode.average AggregationMode.average ∅).1 ≠ [] := by
  have hM : get_detections_from_different_sources_with_max_overlap exCat 0
      [[exCat], [exCatB]] (3 / 10) true ∅ = [(1, exCatB, 16 / 25)] := by
    norm_num [get_detections_from_different_sources_with_max_overlap,
      enumerate_detections, enumerate_from, consider_candidate, assocGet, assocSet,
      calculate_iou, detection_to_xyxy, exCat, exCatB]
  constructor
  · refine (vote_check_accepts_iff_enough_sources exCat 0 [[exCat], [exCatB]] (3 / 10)
      true 3 0 AggregationMode.average AggregationMode.average ∅).1 ?_
    rw [hM]
    norm_num
  · refine (vote_check_accepts_iff_enough_sources exCat 0 [[exCat], [exCatB]] (3 / 10)
      true 1 0 AggregationMode.average AggregationMode.average ∅).2.2.1 rfl (by simp) ?_
    rw [hM]
    norm_num [merge_detections, aggregate_field_values, exCat, exCatB]

/-! ## C4: at-most-once consumption -/

theorem mem_flatten_of_getD :
    ∀ (l : List (List Detection)) (j : Nat) (b : Detection),
      b ∈ l.getD j [] → b ∈ l.flatten := by
  intro l
  induction l with
  | nil => intro j b hb; simp [List.getD] at hb
  | cons ds rest ih =>
    intro j b hb
    rw [List.flatten_cons, List.mem_append]
    match j with
    | 0 =>
      rw [List.getD_cons_zero] at hb
      exact Or.inl hb
    | Nat.succ k =>
      rw [List.getD_cons_succ] at hb
      exact Or.inr (ih k b hb)

theorem nodup_across :
    ∀ (predictions : List (List Detection)),
      ((predictions.flatten).map (fun d => d.detection_id)).Nodup →
      ∀ i j (a b : Detection), i ≠ j → a ∈ predictions.getD i [] →
        b ∈ predictions.getD j [] → a.detection_id ≠ b.detection_id := by
  intro predictions
  induction predictions with
  | nil =>
    intro _ i j a b _ ha _
    simp [List.getD] at ha
  | cons ds rest ih =>
    intro h i j a b hij ha hb
    rw [List.flatten_cons, List.map_append, List.nodup_append] at h
    obtain ⟨hds, hrest, hdisj⟩ := h
    match i, j with
    | 0, 0 => exact absurd rfl hij
    | 0, Nat.succ k =>
      rw [List.getD_cons_zero] at ha
      rw [List.getD_cons_succ] at hb
      intro hcontra
      exact hdisj (List.mem_map_of_mem _ ha)
        (hcontra ▸ List.mem_map_of_mem (fun d => d.detection_id)
          (mem_flatten_of_getD rest k b hb))
    | Nat.succ k, 0 =>
      rw [List.getD_cons_succ] at ha
      rw [List.getD_cons_zero] at hb
      intro hcontra
      exact hdisj (List.mem_map_of_mem _ hb)
        (hcontra ▸ List.mem_map_of_mem (fun d => d.detection_id)
          (mem_flatten_of_getD rest k a ha))
    | Nat.succ k, Nat.succ k' =>
      exact ih hrest k k' a b (by omega) ha hb

theorem enumerate_from_mem_getD (excluded_source : Option Nat) :
    ∀ (predictions : List (List Detection)) (start : Nat) (p : Nat × Detection),
      p ∈ enumerate_from start predictions excluded_source →
      start ≤ p.1 ∧ p.2 ∈ predictions.getD (p.1 - start) [] := by
  intro predictions
  induction predictions with
  | nil => intro start p hp; cases hp
  | cons ds rest ih =>
    intro start p hp
    unfold enumerate_from at hp
    rw [List.mem_append] at hp
    rcases hp with hp | hp
    · split_ifs at hp with h
      · cases hp
      · rw [List.mem_map] at hp
        obtain ⟨d, hd, hdp⟩ := hp
        rw [← hdp]
        refine ⟨le_refl start, ?_⟩
        simpa using hd
    · obtain ⟨hge, hmem⟩ := ih (start + 1) p hp
      refine ⟨by omega, ?_⟩
      have harith : p.1 - start = (p.1 - (start + 1)) + 1 := by omega
      rw [harith, List.getD_cons_succ]
      exact hmem

/-- Under globally distinct raw detection ids, an accepted group's lineage (seed
id plus matched ids) has no duplicates and is disjoint from the consumption set
it was formed against. -/
theorem group_lineage_spec (detection : Detection) (source_id : Nat)
    (predictions : List (List Detection)) (iou_threshold : ℚ) (class_aware : Bool)
    (C : Finset String)
    (hids : ((predictions.flatten).map (fun d => d.detection_id)).Nodup)
    (hseed : detection ∈ predictions.getD source_id [])
    (hseedC : detection.detection_id ∉ C) :
    (group_lineage detection source_id predictions iou_threshold class_aware C).Nodup ∧
    (∀ x ∈ group_lineage detection source_id predictions iou_threshold class_aware C,
      x ∉ C) := by
  have hspec := max_overlap_entry_spec detection source_id predictions iou_threshold
    class_aware C
  have hkeys := (max_overlap_keys detection source_id predictions iou_threshold
    class_aware C).1
  constructor
  · unfold group_lineage
    rw [List.nodup_cons]
    constructor
    · intro hmem
      rw [List.mem_map] at hmem
      obtain ⟨e, he, hid⟩ := hmem
      obtain ⟨hnse, hmem', _⟩ := hspec e he
      exact nodup_across predictions hids e.1 source_id e.2.1 detection hnse hmem'
        hseed hid
    · have hMnodup : (get_detections_from_different_sources_with_max_overlap detection
          source_id predictions iou_threshold class_aware C).Nodup :=
        List.Nodup.of_map _ hkeys
      refine List.Nodup.map_on ?_ hMnodup
      intro x hx y hy hxy
      have hkey : x.1 = y.1 := by
        by_contra hne
        exact (nodup_across predictions hids x.1 y.1 x.2.1 y.2.1 hne
          (hspec x hx).2.1 (hspec y hy).2.1) hxy
      have hval : x.2 = y.2 := by
        have hgx := assocGet_eq_of_mem _ hkeys x hx
        have hgy := assocGet_eq_of_mem _ hkeys y hy
        rw [hkey] at hgx
        exact Option.some.inj (hgx.symm.trans hgy)
      exact Prod.ext hkey hval
  · intro x hx
    unfold group_lineage at hx
    rw [List.mem_cons] at hx
    rcases hx with hx | hx
    · rw [hx]; exact hseedC
    · rw [List.mem_map] at hx
      obtain ⟨e, he, hid⟩ := hx
      rw [← hid]
      exact (hspec e he).2.2

theorem lineage_fold_invariant (predictions : List (List Detection))
    (iou_threshold : ℚ) (class_aware : Bool) (required_votes : Nat) (confidence : ℚ)
    (dmca dmcoa : AggregationMode)
    (hids : ((predictions.flatten).map (fun d => d.detection_id)).Nodup) :
    ∀ (l : List (Nat × Detection)) (st : List (List String) × Finset String),
      (∀ p ∈ l, p.2 ∈ predictions.getD p.1 []) →
      st.1.Pairwise (fun L₁ L₂ => ∀ x ∈ L₁, x ∉ L₂) →
      (∀ L ∈ st.1, L.Nodup) →
      (∀ L ∈ st.1, ∀ x ∈ L, x ∈ st.2) →
      ((l.foldl (lineage_step predictions iou_threshold class_aware required_votes
          confidence dmca dmcoa) st).1.Pairwise (fun L₁ L₂ => ∀ x ∈ L₁, x ∉ L₂)) ∧
      (∀ L ∈ (l.foldl (lineage_step predictions iou_threshold class_aware required_votes
          confidence dmca dmcoa) st).1, L.Nodup) ∧
      (∀ L ∈ (l.foldl (lineage_step predictions iou_threshold class_aware required_votes
          confidence dmca dmcoa) st).1, ∀ x ∈ L,
        x ∈ (l.foldl (lineage_step predictions iou_threshold class_aware required_votes
          confidence dmca dmcoa) st).2) := by
  intro l
  induction l with
  | nil =>
    intro st _ h1 h2 h3
    exact ⟨h1, h2, h3⟩
  | cons p rest ih =>
    intro st hmem h1 h2 h3
    rw [List.foldl_cons]
    have hpmem : p.2 ∈ predictions.getD p.1 [] := hmem p (List.mem_cons_self p rest)
    have hrestmem : ∀ q ∈ rest, q.2 ∈ predictions.getD q.1 [] :=
      fun q hq => hmem q (List.mem_cons_of_mem p hq)
    rcases get_consensus_cases p.2 p.1 predictions iou_threshold class_aware
      required_votes confidence dmca dmcoa st.2 with hcase | ⟨hseedC, _, _, hres⟩
    · have hstep : lineage_step predictions iou_threshold class_aware required_votes
          confidence dmca dmcoa st p = st := by
        unfold lineage_step
        dsimp only
        rw [hcase]
        simp
      rw [hstep]
      exact ih st hrestmem h1 h2 h3
    · obtain ⟨hLnodup, hLdisj⟩ := group_lineage_spec p.2 p.1 predictions iou_threshold
        class_aware st.2 hids hpmem hseedC
      have hstep : lineage_step predictions iou_threshold class_aware required_votes
          confidence dmca dmcoa st p
          = (st.1 ++ [group_lineage p.2 p.1 predictions iou_threshold class_aware st.2],
             st.2 ∪ (group_lineage p.2 p.1 predictions iou_threshold class_aware
               st.2).toFinset) := by
        unfold lineage_step
        dsimp only
        rw [hres]
        simp
      rw [hstep]
      refine ih _ hrestmem ?_ ?_ ?_
      · rw [List.pairwise_append]
        refine ⟨h1, by simp, ?_⟩
        intro L' hL' L'' hL'' x hxL'
        rw [List.mem_singleton] at hL''
        rw [hL'']
        intro hxL
        exact hLdisj x hxL (h3 L' hL' x hxL')
      · intro L hL
        rw [List.mem_append] at hL
        rcases hL with hL | hL
        · exact h2 L hL
        · rw [List.mem_singleton] at hL
          rw [hL]
          exact hLnodup
      · intro L hL x hx
        rw [List.mem_append] at hL
        rcases hL with hL | hL
        · exact Finset.mem_union_left _ (h3 L hL x hx)
        · rw [List.mem_singleton] at hL
          refine Finset.mem_union_right _ ?_
          rw [List.mem_toFinset]
          rw [← hL]
          exact hx

theorem lineage_consensus_length (predictions : List (List Detection))
    (iou_threshold : ℚ) (class_aware : Bool) (required_votes : Nat) (confidence : ℚ)
    (dmca dmcoa : AggregationMode) :
    ∀ (l : List (Nat × Detection)) (lin : List (List String)) (out : List Detection)
      (Cset : Finset String), lin.length = out.length →
      ((l.foldl (lineage_step predictions iou_threshold class_aware required_votes
          confidence dmca dmcoa) (lin, Cset)).1.length
        = (l.foldl (consensus_step predictions iou_threshold class_aware required_votes
          confidence dmca dmcoa) (out, Cset)).1.length) := by
  intro l
  induction l with
  | nil =>
    intro lin out Cset h
    exact h
  | cons p rest ih =>
    intro lin out Cset h
    rw [List.foldl_cons, List.foldl_cons]
    rcases get_consensus_cases p.2 p.1 predictions iou_threshold class_aware
      required_votes confidence dmca dmcoa Cset with hcase | ⟨_, _, _, hres⟩
    · have hstep1 : lineage_step predictions iou_threshold class_aware required_votes
          confidence dmca dmcoa (lin, Cset) p = (lin, Cset) := by
        unfold lineage_step
        dsimp only
        rw [hcase]
        simp
      have hstep2' : consensus_step predictions iou_threshold class_aware required_votes
          confidence dmca dmcoa (out, Cset) p = (out, Cset) := by
        unfold consensus_step
        dsimp only
        rw [hcase]
        simp
      rw [hstep1, hstep2']
      exact ih lin out Cset h
    · have hstep1 : lineage_step predictions iou_threshold class_aware required_votes
          confidence dmca dmcoa (lin, Cset) p
          = (lin ++ [group_lineage p.2 p.1 predictions iou_threshold class_aware Cset],
             Cset ∪ (group_lineage p.2 p.1 predictions iou_threshold class_aware
               Cset).toFinset) := by
        unfold lineage_step
        dsimp only
        rw [hres]
        simp
      have hstep2 : consensus_step predictions iou_threshold class_aware required_votes
          confidence dmca dmcoa (out, Cset) p
          = (out ++ [merge_detections (p.2 ::
              (get_detections_from_different_sources_with_max_overlap p.2 p.1 predictions
                iou_threshold class_aware Cset).map (fun e => e.2.1)) dmca dmcoa],
             Cset ∪ (group_lineage p.2 p.1 predictions iou_threshold class_aware
               Cset).toFinset) := by
        unfold consensus_step
        dsimp only
        rw [hres]
      rw [hstep1, hstep2]
      exact ih _ _ _ (by simp [h])

/-- C4: within one batch element, each raw detection id is consumed by at most
one consensus group.  Provided the raw detection ids across all sources are
pairwise distinct (a data-model invariant), the lineages (seed id plus matched
ids — exactly the ids the code adds to the consumption set) of the groups that
produce output merged detections are pairwise disjoint and each duplicate-free,
and there is exactly one lineage per output merged detection; hence no raw
detection id appears in the lineage of more than one output merged detection. -/
theorem consensus_lineages_pairwise_disjoint (predictions : List (List Detection))
    (iou_threshold : ℚ) (class_aware : Bool) (required_votes : Nat) (confidence : ℚ)
    (dmca dmcoa : AggregationMode)
    (hids : ((predictions.flatten).map (fun d => d.detection_id)).Nodup) :
    (consensus_lineages predictions iou_threshold class_aware required_votes confidence
      dmca dmcoa).Pairwise (fun L₁ L₂ => ∀ x ∈ L₁, x ∉ L₂) ∧
    (∀ L ∈ consensus_lineages predictions iou_threshold class_aware required_votes
      confidence dmca dmcoa, L.Nodup) ∧
    (consensus_lineages predictions iou_threshold class_aware required_votes confidence
      dmca dmcoa).length
      = ((enumerate_detections predictions none).foldl
          (consensus_step predictions iou_threshold class_aware required_votes confidence
            dmca dmcoa) ([], (∅ : Finset String))).1.length := by
  have hmem : ∀ p ∈ enumerate_detections predictions none,
      p.2 ∈ predictions.getD p.1 [] := by
    intro p hp
    have h := enumerate_from_mem_getD none predictions 0 p hp
    simpa using h.2
  obtain ⟨h1, h2, _⟩ := lineage_fold_invariant predictions iou_threshold class_aware
    required_votes confidence dmca dmcoa hids (enumerate_detections predictions none)
    ([], (∅ : Finset String)) hmem (by simp) (by simp) (by simp)
  have hlen := lineage_consensus_length predictions iou_threshold class_aware
    required_votes confidence dmca dmcoa (enumerate_detections predictions none)
    [] [] (∅ : Finset String) rfl
  exact ⟨h1, h2, hlen⟩

/-- Witness for C4: the two-source element `[[exCat], [exCatB]]` has pairwise
distinct raw ids `a`, `b`, so its group lineages are pairwise disjoint,
duplicate-free, and one per output merged detection. -/
theorem consensus_lineages_pairwise_disjoint_witness :
    ((([[exCat], [exCatB]] : List (List Detection)).flatten).map
      (fun d => d.detection_id)).Nodup ∧
    ((consensus_lineages [[exCat], [exCatB]] (3 / 10) true 2 0 AggregationMode.average
      AggregationMode.average).Pairwise (fun L₁ L₂ => ∀ x ∈ L₁, x ∉ L₂) ∧
    (∀ L ∈ consensus_lineages [[exCat], [exCatB]] (3 / 10) true 2 0
      AggregationMode.average AggregationMode.average, L.Nodup) ∧
    (consensus_lineages [[exCat], [exCatB]] (3 / 10) true 2 0 AggregationMode.average
      AggregationMode.average).length
      = ((enumerate_detections [[exCat], [exCatB]] none).foldl
          (consensus_step [[exCat], [exCatB]] (3 / 10) true 2 0 AggregationMode.average
            AggregationMode.average) ([], (∅ : Finset String))).1.length) := by
  have hids : ((([[exCat], [exCatB]] : List (List Detection)).flatten).map
      (fun d => d.detection_id)).Nodup := by
    simp [exCat, exCatB]
  exact ⟨hids, consensus_lineages_pairwise_disjoint [[exCat], [exCatB]] (3 / 10) true 2 0
    AggregationMode.average AggregationMode.average hids⟩
